import Mathlib

/-!
# Ricoh RF5C400 PCM sound generator

A shallow embedding of `src/devices/sound/rf5c400.cpp` (MAME) and a verification
development over it.

Conventions of the embedding:

* unsigned machine integers are `Nat`; where the C++ arithmetic can wrap the
  reduction modulo `2 ^ w` is written out (`uint64_t pos`, `uint32_t
  m_ext_mem_address`, the `uint16_t data` parameter of `rf5c400_w`);
* `int32_t sample` is an `Int`; with 16-bit entries in `volume_table` its values stay
  inside the 32-bit range;
* `double` is modelled by exact rational arithmetic (`ℚ`); the conversion of a
  `double` to an integer truncates toward zero;
* the 32 voices are a function `Fin 32 → rf5c400_channel`;
* the sample storage behind `read_word` / `write_word` is a function from byte
  addresses to 16-bit words;
* the C library calls `pow` and `sqrt` of `init_static_tables` are parameters: the value
  of the one `pow` call and the square-root function.
-/

namespace RF5C400

/-! ## Data model -/

/-- Envelope phase (the anonymous enum `PHASE_NONE = 0, PHASE_ATTACK, PHASE_DECAY,
PHASE_RELEASE`). -/
inductive Phase where
  | PHASE_NONE
  | PHASE_ATTACK
  | PHASE_DECAY
  | PHASE_RELEASE
  deriving DecidableEq

/-- One voice record: the fields that `device_start` initialises and registers with
`save_item` (`struct rf5c400_channel`). -/
structure rf5c400_channel where
  startH : Nat
  startL : Nat
  freq : Nat
  endL : Nat
  endHloopH : Nat
  loopL : Nat
  pan : Nat
  effect : Nat
  volume : Nat
  attack : Nat
  decay : Nat
  release : Nat
  cutoff : Nat
  pos : Nat
  step : Nat
  keyon : Nat
  env_phase : Phase
  env_level : ℚ
  env_step : ℚ
  env_scale : ℚ
  deriving DecidableEq

/-- The read-only tables consulted by the register interface and the synthesis loop.
`volume_table` and `pan_table` are the two static arrays filled by
`init_static_tables`; `ar`, `dr`, `rr` are the lookups `m_env_tables.ar(channel)`,
`.dr(channel)`, `.rr(channel)`, whose bodies are declared in the device header and not in
the translated source file, so they are taken as given functions of the voice record. -/
structure tables where
  volume_table : Nat → Int
  pan_table : Nat → ℚ
  ar : rf5c400_channel → ℚ
  dr : rf5c400_channel → ℚ
  rr : rf5c400_channel → ℚ

/-- The device: 32 voices, the global registers and the sample storage reached through
`read_word` and `space().write_word`. -/
structure rf5c400_device where
  m_channels : Fin 32 → rf5c400_channel
  m_rf5c400_status : Nat
  m_ext_mem_address : Nat
  m_ext_mem_data : Nat
  m_req_channel : Fin 32
  space : Nat → Nat

/-- The locals of `sound_stream_update` that change from sample to sample:
`pos`, `env_phase`, `env_level`, `env_step` and the cached `env_rstep`. -/
structure voice where
  pos : Nat
  env_phase : Phase
  env_level : ℚ
  env_step : ℚ
  env_rstep : ℚ
  deriving DecidableEq

/-- The two output streams `outputs[0]`, `outputs[1]`, indexed by sample number. -/
abbrev buffers := (Nat → ℚ) × (Nat → ℚ)

/-! ## Address decoding -/

/-- Assembled start address:
`start = ((uint32_t)(channel->startH & 0xFF00) << 8) | channel->startL`. -/
def chan_start (c : rf5c400_channel) : Nat :=
  ((c.startH &&& 0xFF00) <<< 8) ||| c.startL

/-- Assembled end address:
`end = ((uint32_t)(channel->endHloopH & 0xFF) << 16) | channel->endL`. -/
def chan_end (c : rf5c400_channel) : Nat :=
  ((c.endHloopH &&& 0xFF) <<< 16) ||| c.endL

/-- Assembled loop length:
`loop = ((uint32_t)(channel->endHloopH & 0xFF00) << 8) | channel->loopL`. -/
def chan_loop (c : rf5c400_channel) : Nat :=
  ((c.endHloopH &&& 0xFF00) <<< 8) ||| c.loopL

/-- A 5-bit voice number (`data & 0x1f`, `(offset >> 5) & 0x1f`) as an index into
`m_channels`. -/
def chan_index (x : Nat) : Fin 32 :=
  ⟨x &&& 0x1f, Nat.lt_of_le_of_lt Nat.and_le_right (by decide)⟩

/-! ## Device start -/

/-- The voice initialisation loop of `device_start`: every field it assigns is zeroed,
`env_scale` is 1.0, and `cutoff` (not assigned there) keeps its value. -/
def reset_channel (chan : rf5c400_channel) : rf5c400_channel :=
  { chan with
    startH := 0, startL := 0, freq := 0, endL := 0, endHloopH := 0, loopL := 0,
    pan := 0, effect := 0, volume := 0, attack := 0, decay := 0, release := 0,
    pos := 0, step := 0, keyon := 0,
    env_phase := Phase.PHASE_NONE, env_level := 0, env_step := 0, env_scale := 1 }

/-- State part of `device_start`: all voices initialised, `m_req_channel = 0`; the
members it does not assign are kept. -/
def device_start (d : rf5c400_device) : rf5c400_device :=
  { d with
    m_channels := fun ch => reset_channel (d.m_channels ch),
    m_req_channel := 0 }

/-! ## Synthesis: one sample of one voice -/

/-- The value of a 16-bit word read as `int16_t`. -/
def to_int16 (w : Nat) : Int :=
  if w % 65536 < 32768 then ((w % 65536 : Nat) : Int) else ((w % 65536 : Nat) : Int) - 65536

/-- Storage read `read_word(address)`: the 16-bit word stored at a byte address (`offs_t` is 32 bits
wide). -/
def read_word (space : Nat → Nat) (address : Nat) : Nat :=
  space (address % 2 ^ 32) % 65536

/-- The `switch (type)` on the PCM type: `TYPE_16 = 0x00`, `TYPE_8LOW = 0x40`,
`TYPE_8HIGH = 0x80`, anything else gives 0. `tmp` is the fetched word. -/
def decode_sample (type : Nat) (tmp : Nat) : Int :=
  if type = 0x0000 then to_int16 tmp
  else if type = 0x0040 then to_int16 (tmp <<< 8)
  else if type = 0x0080 then to_int16 (tmp &&& 0xFF00)
  else 0

/-- Sign folding: `if (sample & 0x8000) sample ^= 0x7FFF;`. -/
def fold_sample (sample : Int) : Int :=
  if Int.land sample 0x8000 ≠ 0 then Int.xor sample 0x7FFF else sample

/-- Conversion of a `double` to an integer type: truncation toward zero. -/
def trunc (q : ℚ) : Int :=
  if 0 ≤ q then ⌊q⌋ else ⌈q⌉

/-- The envelope part of one loop iteration: `env_level += env_rstep;` followed by
`switch (env_phase)`. -/
def env_update (T : tables) (channel : rf5c400_channel) (v : voice) : voice :=
  let env_level := v.env_level + v.env_rstep
  match v.env_phase with
  | Phase.PHASE_ATTACK =>
    if env_level ≥ 1 then
      let env_step : ℚ :=
        if channel.decay &&& 0x0080 ≠ 0 ∨ channel.decay = 0x100 then 0 else T.dr channel
      { v with env_phase := Phase.PHASE_DECAY, env_level := 1, env_step := env_step,
               env_rstep := env_step * channel.env_scale }
    else { v with env_level := env_level }
  | Phase.PHASE_DECAY =>
    if env_level ≤ 0 then
      { v with env_phase := Phase.PHASE_NONE, env_level := 0, env_step := 0, env_rstep := 0 }
    else { v with env_level := env_level }
  | Phase.PHASE_RELEASE =>
    if env_level ≤ 0 then
      { v with env_phase := Phase.PHASE_NONE, env_level := 0, env_step := 0, env_rstep := 0 }
    else { v with env_level := env_level }
  | Phase.PHASE_NONE => { v with env_level := env_level }

/-- The position part of one loop iteration: `pos += channel->step;` and the loop wrap
`pos -= loop<<16; pos &= 0xFFFFFF0000ULL; if (pos < (start<<16)) pos = start<<16;`
taken when `(pos>>16) > end`. `pos` is a `uint64_t`. -/
def advance_pos (pos step start end_ loop : Nat) : Nat :=
  let pos := (pos + step) % 2 ^ 64
  if pos >>> 16 > end_ then
    let pos := (pos + 2 ^ 64 - (loop <<< 16) % 2 ^ 64) % 2 ^ 64
    let pos := pos &&& 0xFFFFFF0000
    if pos < start <<< 16 then start <<< 16 else pos
  else pos

/-- One iteration of the sample loop after the `PHASE_NONE` check: the new locals and
the two integers handed to `buf0.add_int` and `buf1.add_int`. -/
def tick (T : tables) (space : Nat → Nat) (channel : rf5c400_channel) (v : voice) :
    voice × Int × Int :=
  let vol := channel.volume &&& 0xFF
  let lvol := channel.pan &&& 0xFF
  let rvol := (channel.pan >>> 8) % 256
  let type := (channel.volume >>> 8) &&& 0x00C0
  let tmp := read_word space ((v.pos >>> 16) <<< 1)
  let sample := fold_sample (decode_sample type tmp)
  let e := env_update T channel v
  let sample := sample * T.volume_table vol
  let sample := trunc (((sample >>> 9 : Int) : ℚ) * e.env_level)
  let pos := advance_pos v.pos channel.step (chan_start channel) (chan_end channel)
    (chan_loop channel)
  ({ e with pos := pos },
   trunc ((sample : ℚ) * T.pan_table lvol),
   trunc ((sample : ℚ) * T.pan_table rvol))

/-- The decoded and sign-folded sample of one loop iteration: the value of `sample` after
`if (sample & 0x8000) sample ^= 0x7FFF;` and before the volume scaling. -/
def folded_sample (space : Nat → Nat) (channel : rf5c400_channel) (v : voice) : Int :=
  fold_sample (decode_sample ((channel.volume >>> 8) &&& 0x00C0)
    (read_word space ((v.pos >>> 16) <<< 1)))

/-- Output accumulation `buf.add_int(i, sample, 32768)`: adds `sample / 32768` to entry `i`. -/
def add_int (buf : Nat → ℚ) (i : Nat) (sample : Int) : Nat → ℚ :=
  Function.update buf i (buf i + (sample : ℚ) / 32768)

/-! ## Synthesis: one block -/

/-- The sample loop `for (i = ...; i < buf0.samples(); i++)` with `k` iterations left,
starting at sample number `i`; it stops at the first iteration that finds
`env_phase == PHASE_NONE`. -/
def run_samples (T : tables) (space : Nat → Nat) (channel : rf5c400_channel) :
    Nat → Nat → voice → buffers → voice × buffers
  | 0, _, v, b => (v, b)
  | k + 1, i, v, b =>
    if v.env_phase = Phase.PHASE_NONE then (v, b)
    else
      let r := tick T space channel v
      run_samples T space channel k (i + 1) r.1 (add_int b.1 i r.2.1, add_int b.2 i r.2.2)

/-- The locals of a voice at the top of its sample loop: `pos`, `env_phase`,
`env_level`, `env_step` copied from the record and
`env_rstep = env_step * channel->env_scale`. -/
def load_locals (channel : rf5c400_channel) : voice :=
  { pos := channel.pos, env_phase := channel.env_phase, env_level := channel.env_level,
    env_step := channel.env_step, env_rstep := channel.env_step * channel.env_scale }

/-- The write-back after the sample loop: `channel->pos = pos; channel->env_phase =
env_phase; channel->env_level = env_level; channel->env_step = env_step;`. -/
def commit_locals (channel : rf5c400_channel) (v : voice) : rf5c400_channel :=
  { channel with pos := v.pos, env_phase := v.env_phase, env_level := v.env_level,
                 env_step := v.env_step }

/-- The body of the voice loop `for (ch = 0; ch < 32; ch++)` for one voice and a block
of `n` samples: skip when `start == end`, otherwise run the sample loop and commit
`pos`, `env_phase`, `env_level`, `env_step`. -/
def update_channel (T : tables) (space : Nat → Nat) (channel : rf5c400_channel) (n : Nat)
    (b : buffers) : rf5c400_channel × buffers :=
  if chan_start channel = chan_end channel then (channel, b)
  else
    let r := run_samples T space channel n 0 (load_locals channel) b
    (commit_locals channel r.1, r.2)

/-- One pass of the voice loop over voice `ch`. -/
def update_step (T : tables) (n : Nat) (acc : rf5c400_device × buffers) (ch : Fin 32) :
    rf5c400_device × buffers :=
  let r := update_channel T acc.1.space (acc.1.m_channels ch) n acc.2
  ({ acc.1 with m_channels := Function.update acc.1.m_channels ch r.1 }, r.2)

/-- The function `sound_stream_update` for a block of `n` samples: both outputs are filled with 0,
then the 32 voices are processed in order. Returns the new device state and the two
output buffers. -/
def sound_stream_update (T : tables) (d : rf5c400_device) (n : Nat) :
    rf5c400_device × buffers :=
  (List.finRange 32).foldl (update_step T n) (d, (fun _ => 0, fun _ => 0))

/-! ## Register writes -/

/-- Channel control, command `0x60`: start the voice. -/
def key_on (T : tables) (c : rf5c400_channel) : rf5c400_channel :=
  let c := { c with pos := ((c.startH &&& 0xFF00) <<< 8) ||| c.startL }
  let c := { c with pos := (c.pos <<< 16) % 2 ^ 64 }
  let c := { c with env_phase := Phase.PHASE_ATTACK }
  let c := { c with env_level := 0 }
  { c with env_step := T.ar c }

/-- Channel control, command `0x40`: release the voice. -/
def key_off (T : tables) (c : rf5c400_channel) : rf5c400_channel :=
  if c.env_phase ≠ Phase.PHASE_NONE then
    let c := { c with env_phase := Phase.PHASE_RELEASE }
    if c.release &&& 0x0080 ≠ 0 then { c with env_step := 0 }
    else { c with env_step := T.rr c }
  else c

/-- Channel control, any other command: mute the voice. -/
def mute (c : rf5c400_channel) : rf5c400_channel :=
  { c with env_phase := Phase.PHASE_NONE, env_level := 0, env_step := 0 }

/-- The `switch (data & 0x60)` of the channel control register (offset `0x01`), applied
to the addressed voice. -/
def channel_control (T : tables) (c : rf5c400_channel) (data : Nat) : rf5c400_channel :=
  if data &&& 0x60 = 0x60 then key_on T c
  else if data &&& 0x60 = 0x40 then key_off T c
  else mute c

/-- The `switch (reg)` of the per-voice register window (`offset >= 0x400`). -/
def write_channel_reg (channel : rf5c400_channel) (reg data : Nat) : rf5c400_channel :=
  if reg = 0x00 then { channel with startH := data }
  else if reg = 0x01 then { channel with startL := data }
  else if reg = 0x02 then
    { channel with step := ((data &&& 0x1fff) <<< (data >>> 13)) * 4, freq := data }
  else if reg = 0x03 then { channel with endL := data }
  else if reg = 0x04 then { channel with endHloopH := data }
  else if reg = 0x05 then { channel with loopL := data }
  else if reg = 0x06 then { channel with pan := data }
  else if reg = 0x07 then { channel with effect := data }
  else if reg = 0x08 then { channel with volume := data }
  else if reg = 0x09 then { channel with attack := data }
  else if reg = 0x0C then { channel with decay := data }
  else if reg = 0x0E then { channel with release := data }
  else if reg = 0x10 then { channel with cutoff := data }
  else channel

/-- Register write `rf5c400_w(offset, data, mem_mask)`; `data` is a `uint16_t`, `mem_mask` is only
logged. -/
def rf5c400_w (T : tables) (d : rf5c400_device) (offset data : Nat) : rf5c400_device :=
  let data := data % 65536
  if offset < 0x400 then
    if offset = 0x00 then { d with m_rf5c400_status := data }
    else if offset = 0x01 then
      let ch := chan_index data
      { d with m_channels :=
          Function.update d.m_channels ch (channel_control T (d.m_channels ch) data) }
    else if offset = 0x08 then { d with m_req_channel := chan_index data }
    else if offset = 0x11 then
      { d with m_ext_mem_address := (d.m_ext_mem_address &&& 0xFFFF0000) ||| data }
    else if offset = 0x12 then
      { d with m_ext_mem_address :=
          (d.m_ext_mem_address &&& 0xffff) ||| ((data <<< 16) % 2 ^ 32) }
    else if offset = 0x13 then { d with m_ext_mem_data := data }
    else if offset = 0x14 then
      if data &&& 0x3 = 3 then
        { d with space :=
            Function.update d.space ((d.m_ext_mem_address <<< 1) % 2 ^ 32) d.m_ext_mem_data }
      else d
    else d
  else
    let ch := chan_index (offset >>> 5)
    let reg := offset &&& 0x1f
    { d with m_channels :=
        Function.update d.m_channels ch (write_channel_reg (d.m_channels ch) reg data) }

/-! ## Register reads -/

/-- Register read `rf5c400_r(offset, mem_mask)`; the result is a `uint16_t`. The read
of offset `0x09` first calls `m_stream->update()`, which synthesizes the `pending`
samples that are due. Returns the device state after the read and the value read. -/
def rf5c400_r (T : tables) (d : rf5c400_device) (offset pending : Nat) :
    rf5c400_device × Nat :=
  if offset < 0x400 then
    if offset = 0x00 then (d, d.m_rf5c400_status % 65536)
    else if offset = 0x04 then (d, 0)
    else if offset = 0x09 then
      let d := (sound_stream_update T d pending).1
      let channel := d.m_channels d.m_req_channel
      if channel.env_phase = Phase.PHASE_NONE then (d, 0)
      else
        let start := chan_start channel % 2 ^ 32
        let ch_offset := ((channel.pos >>> 16) + 2 ^ 64 - start) % 2 ^ 64
        (d, (ch_offset >>> 6) % 65536)
    else if offset = 0x13 then (d, read_word d.space (d.m_ext_mem_address <<< 1))
    else (d, 0)
  else
    let reg := offset &&& 0x1f
    if reg = 0x0F then (d, 0xf) else (d, 0)

/-! ## Envelope rate tables -/

/-- The three rate arrays `m_ar`, `m_dr`, `m_rr` of `envelope_tables`. -/
structure envelope_tables where
  m_ar : Nat → ℚ
  m_dr : Nat → ℚ
  m_rr : Nat → ℚ

/-- The constructor `envelope_tables::envelope_tables()`: all three arrays filled with
0.0. -/
def envelope_tables.create : envelope_tables :=
  { m_ar := fun _ => 0, m_dr := fun _ => 0, m_rr := fun _ => 0 }

/-- A loop `for (int i = lo; i < hi; i++) a[i] = f(i);`. -/
def fill_loop (a : Nat → ℚ) (lo hi : Nat) (f : Nat → ℚ) : Nat → ℚ :=
  (List.range' lo (hi - lo)).foldl (fun a i => Function.update a i (f i)) a

/-- The function `envelope_tables::init(uint32_t clock)`, with its constants
`ENV_AR_SPEED = 0.1`, `ENV_MIN_AR = 0x02`, `ENV_MAX_AR = 0x80`, `ENV_DR_SPEED = 2.0`,
`ENV_MIN_DR = 0x20`, `ENV_MAX_DR = 0x73`, `ENV_RR_SPEED = 0.7`, `ENV_MIN_RR = 0x20`,
`ENV_MAX_RR = 0x54`; `clock / 384` is an integer division. -/
def envelope_tables.init (t : envelope_tables) (clock : Nat) : envelope_tables :=
  let clock := clock % 2 ^ 32
  -- attack
  let r : ℚ := 1 / ((1 / 10 : ℚ) * ((clock / 384 : Nat) : ℚ))
  let m_ar := fill_loop t.m_ar 0 0x02 (fun _ => 1)
  let m_ar := fill_loop m_ar 0x02 0x80
    (fun i => r * (((0x80 : Int) - (i : Int) : Int) : ℚ) / (((0x80 : Int) - 0x02 : Int) : ℚ))
  let m_ar := fill_loop m_ar 0x80 0x9f (fun _ => 0)
  -- decay
  let r : ℚ := -5 / ((2 : ℚ) * ((clock / 384 : Nat) : ℚ))
  let m_dr := fill_loop t.m_dr 0 0x20 (fun _ => r)
  let m_dr := fill_loop m_dr 0x20 0x73
    (fun i => r * (((0x73 : Int) - (i : Int) : Int) : ℚ) / (((0x73 : Int) - 0x20 : Int) : ℚ))
  let m_dr := fill_loop m_dr 0x73 0x9f (fun _ => 0)
  -- release
  let r : ℚ := -5 / ((7 / 10 : ℚ) * ((clock / 384 : Nat) : ℚ))
  let m_rr := fill_loop t.m_rr 0 0x20 (fun _ => r)
  let m_rr := fill_loop m_rr 0x20 0x54
    (fun i => r * (((0x54 : Int) - (i : Int) : Int) : ℚ) / (((0x54 : Int) - 0x20 : Int) : ℚ))
  let m_rr := fill_loop m_rr 0x54 0x9f (fun _ => 0)
  { m_ar := m_ar, m_dr := m_dr, m_rr := m_rr }

/-! ## Static attenuation tables -/

/-- The volume loop of `init_static_tables`: `double max = 255.0; for (int i = 0;
i < 256; i++) { volume_table[i] = uint16_t(max); max /= pow(10.0, ...); }`. The divisor
`p` is the value of `pow(10.0, double((4.5 / (256.0 / 16.0)) / 20))`, a C library call
whose result is taken as given. Returns the final `max` and the array. -/
def volume_loop (p : ℚ) (volume_table : Nat → Int) : ℚ × (Nat → Int) :=
  (List.range 256).foldl
    (fun (s : ℚ × (Nat → Int)) i => (s.1 / p, Function.update s.2 i (trunc s.1 % 65536)))
    (255, volume_table)

/-- The two pan loops of `init_static_tables`: `pan_table[i] = sqrt(double(0x47 - i)) /
sqrt(double(0x47))` for `i < 0x48` and `pan_table[i] = 0.0` for `0x48 <= i < 0x64`. The
square root is the C library function, taken as given. -/
def pan_loops (sqrt : ℚ → ℚ) (pan_table : Nat → ℚ) : Nat → ℚ :=
  let pan_table := fill_loop pan_table 0 0x48
    (fun i => sqrt ((((0x47 : Int) - (i : Int) : Int) : ℚ)) / sqrt (((0x47 : Int) : ℚ)))
  fill_loop pan_table 0x48 0x64 (fun _ => 0)

/-- The function `init_static_tables`: fills `volume_table` and `pan_table`; the rate
lookups are not touched. -/
def init_static_tables (p : ℚ) (sqrt : ℚ → ℚ) (T : tables) : tables :=
  { T with volume_table := (volume_loop p T.volume_table).2,
           pan_table := pan_loops sqrt T.pan_table }

/-! ## Reachable device states -/

/-- Device states reachable from `device_start` by register writes and synthesized
blocks. -/
inductive Reachable (T : tables) : rf5c400_device → Prop
  | start (d : rf5c400_device) : Reachable T (device_start d)
  | write (d : rf5c400_device) (offset data : Nat) :
      Reachable T d → Reachable T (rf5c400_w T d offset data)
  | update (d : rf5c400_device) (n : Nat) :
      Reachable T d → Reachable T (sound_stream_update T d n).1


/-! ## Derived notions used in the statements -/

/-- The voice record after a block of `n` samples, as a function of the record before. -/
def chan_after (T : tables) (space : Nat → Nat) (channel : rf5c400_channel) (n : Nat) :
    rf5c400_channel :=
  (update_channel T space channel n (fun _ => 0, fun _ => 0)).1

/-- The locals of a voice after `n` iterations of its sample loop (or fewer, when the
loop stopped on `PHASE_NONE`). -/
def voice_after (T : tables) (space : Nat → Nat) (channel : rf5c400_channel) (n : Nat) :
    voice :=
  (run_samples T space channel n 0 (load_locals channel) (fun _ => 0, fun _ => 0)).1

/-- The voice record that a position poll looks at: voice `data & 0x1f` after the write
of `data` to offset `0x08` and the synthesis of the `pending` samples. -/
def polled_channel (T : tables) (d : rf5c400_device) (data pending : Nat) : rf5c400_channel :=
  (sound_stream_update T (rf5c400_w T d 0x08 data) pending).1.m_channels (chan_index data)

/-- The output of a block of `N` samples followed by the output of a second block: entry
`i < N` comes from the first buffer, entry `i >= N` is entry `i - N` of the second. -/
def concat_buf (N : Nat) (x y : Nat → ℚ) : Nat → ℚ :=
  fun i => if i < N then x i else y (i - N)

/-- Concatenation of both output streams. -/
def concat_bufs (N : Nat) (x y : buffers) : buffers :=
  (concat_buf N x.1 y.1, concat_buf N x.2 y.2)

/-- Sign condition on the rate lookups: attack rates are non-negative, decay and release
rates are non-positive. -/
def rates_signed (T : tables) : Prop :=
  (∀ c, 0 ≤ T.ar c) ∧ (∀ c, T.dr c ≤ 0) ∧ (∀ c, T.rr c ≤ 0)

/-- Envelope invariant of a voice record: `env_scale` is 1, the level lies in `[0, 1]`,
and the step points upward in ATTACK and downward in DECAY and RELEASE. -/
def env_ok (c : rf5c400_channel) : Prop :=
  c.env_scale = 1 ∧ 0 ≤ c.env_level ∧ c.env_level ≤ 1 ∧
  (c.env_phase = Phase.PHASE_ATTACK → 0 ≤ c.env_step) ∧
  (c.env_phase = Phase.PHASE_DECAY ∨ c.env_phase = Phase.PHASE_RELEASE → c.env_step ≤ 0)

/-- Envelope invariant of the loop locals: the cached `env_rstep` equals `env_step`
(scale 1), the level lies in `[0, 1]`, and the step has the sign of its phase. -/
def locals_ok (v : voice) : Prop :=
  v.env_rstep = v.env_step ∧ 0 ≤ v.env_level ∧ v.env_level ≤ 1 ∧
  (v.env_phase = Phase.PHASE_ATTACK → 0 ≤ v.env_step) ∧
  (v.env_phase = Phase.PHASE_DECAY ∨ v.env_phase = Phase.PHASE_RELEASE → v.env_step ≤ 0)

/-! ## Concrete inputs -/

/-- A concrete table set: constant volume 255, constant pan 1, attack rate 1 per sample,
decay and release rate -1/100 per sample. -/
def demo_tables : tables :=
  { volume_table := fun _ => 255, pan_table := fun _ => 1,
    ar := fun _ => 1, dr := fun _ => -1 / 100, rr := fun _ => -1 / 100 }

/-- A voice record with every register zero, as after `device_start`. -/
def zero_channel : rf5c400_channel :=
  { startH := 0, startL := 0, freq := 0, endL := 0, endHloopH := 0, loopL := 0, pan := 0,
    effect := 0, volume := 0, attack := 0, decay := 0, release := 0, cutoff := 0, pos := 0,
    step := 0, keyon := 0, env_phase := Phase.PHASE_NONE, env_level := 0, env_step := 0,
    env_scale := 1 }

/-- A device with all voices and registers zero and empty sample storage. -/
def zero_device : rf5c400_device :=
  { m_channels := fun _ => zero_channel, m_rf5c400_status := 0, m_ext_mem_address := 0,
    m_ext_mem_data := 0, m_req_channel := 0, space := fun _ => 0 }

/-- Voice 0 keyed on: after `device_start`, a write of 1 to its `endL` register (offset
`0x403`) and the key-on command (`0x60` to offset `0x01`). -/
def attack_device : rf5c400_device :=
  rf5c400_w demo_tables (rf5c400_w demo_tables (device_start zero_device) 0x403 1) 0x01 0x60

/-- The state of `attack_device` after one synthesized sample. -/
def decay_device : rf5c400_device :=
  (sound_stream_update demo_tables attack_device 1).1

/-- The looping voice of the loop-rewind scenario: `start = 0x1000`, `end = 0x2000`,
`loop = 0x0500`, `step = 0x10000` (frequency register `0x5000`), position at the end
address, in DECAY at level 1 with step -1/100. -/
def scenario_channel : rf5c400_channel :=
  { zero_channel with
    startL := 0x1000, endL := 0x2000, loopL := 0x0500, freq := 0x5000, step := 0x10000,
    pos := 0x2000 <<< 16, env_phase := Phase.PHASE_DECAY, env_level := 1,
    env_step := -1 / 100 }

/-- A device whose voices all hold `scenario_channel`. -/
def scenario_device : rf5c400_device :=
  { zero_device with m_channels := fun _ => scenario_channel }

/-- Voice 0 set up with `end = 1`, `loop = 3`, `step = 0x10000` and keyed on: after
`device_start`, writes of 1 to `endL` (offset `0x403`), 3 to `loopL` (offset `0x405`),
`0x5000` to the frequency register (offset `0x402`), and the key-on command. -/
def underflow_device : rf5c400_device :=
  rf5c400_w demo_tables
    (rf5c400_w demo_tables
      (rf5c400_w demo_tables
        (rf5c400_w demo_tables (device_start zero_device) 0x403 1) 0x405 3) 0x402 0x5000)
    0x01 0x60

/-- A voice at the top of the 24-bit address range: `start = 0xFFFFFE`,
`end = 0xFFFFFF`, `loop = 0`, `step = 0x10000`, position at the end address. -/
def top_channel : rf5c400_channel :=
  { zero_channel with
    startH := 0xFF00, startL := 0xFFFE, endHloopH := 0x00FF, endL := 0xFFFF, loopL := 0,
    freq := 0x5000, step := 0x10000, pos := 0xFFFFFF <<< 16,
    env_phase := Phase.PHASE_DECAY, env_level := 1, env_step := -1 / 100 }

/-- A device whose voices all hold `top_channel`. -/
def top_device : rf5c400_device :=
  { zero_device with m_channels := fun _ => top_channel }

/-- A voice far into a long sample: `start = 0`, `end = 0xFFFFFF`, position
`0x400000 << 16`, held in DECAY at level 1 by the decay register `0x100` (step 0). -/
def far_channel : rf5c400_channel :=
  { zero_channel with
    endHloopH := 0x00FF, endL := 0xFFFF, freq := 0x5000, step := 0x10000, decay := 0x100,
    pos := 0x400000 <<< 16, env_phase := Phase.PHASE_DECAY, env_level := 1, env_step := 0 }

/-- A device whose voices all hold `far_channel`. -/
def far_device : rf5c400_device :=
  { zero_device with m_channels := fun _ => far_channel }

/-- A rational stand-in for the C library square root, exact to three decimals:
`floor (sqrt (q * 10 ^ 6)) / 10 ^ 3`. -/
def sqrt_approx (q : ℚ) : ℚ :=
  (Nat.sqrt (⌊q * 1000000⌋.toNat) : ℚ) / 1000

/-- Voice 0 keyed on with the pan register `0xFFFF` over a storage whose word 0 is
`0x4000`: after `device_start`, writes of 1 to `endL` (offset `0x403`), `0xFFFF` to the
pan register (offset `0x406`), `0x4000` to the memory data register (offset `0x13`), the
memory write command (3 to offset `0x14`, address register 0), and the key-on command. -/
def pan_device : rf5c400_device :=
  rf5c400_w demo_tables
    (rf5c400_w demo_tables
      (rf5c400_w demo_tables
        (rf5c400_w demo_tables
          (rf5c400_w demo_tables (device_start zero_device) 0x403 1) 0x406 0xFFFF)
        0x13 0x4000)
      0x14 3)
    0x01 0x60

/-- A table set that agrees with `demo_tables` on the `0x64` entries of the pan table
and has 0 at every index beyond them. -/
def demo_tables_short : tables :=
  { demo_tables with pan_table := fun i => if i < 0x64 then 1 else 0 }

theorem run_samples_voice_indep (T : tables) (space : Nat → Nat) (channel : rf5c400_channel)
    (k : Nat) : ∀ (i j : Nat) (v : voice) (b c : buffers),
    (run_samples T space channel k i v b).1 = (run_samples T space channel k j v c).1 := by
  induction k with
  | zero => intro i j v b c; rfl
  | succ k ih =>
    intro i j v b c
    by_cases h : v.env_phase = Phase.PHASE_NONE
    · simp [run_samples, h]
    · simp only [run_samples, h, if_false]
      exact ih _ _ _ _ _

/-- The voice record left by a block of `n` samples does not depend on the output
buffers it adds to. -/
theorem update_channel_indep (T : tables) (space : Nat → Nat) (channel : rf5c400_channel)
    (n : Nat) (b c : buffers) :
    (update_channel T space channel n b).1 = (update_channel T space channel n c).1 := by
  unfold update_channel
  by_cases h : chan_start channel = chan_end channel
  · simp [h]
  · simp only [h, if_false]
    rw [run_samples_voice_indep T space channel n 0 0 _ b c]

theorem foldl_update_step (T : tables) (n : Nat) (l : List (Fin 32)) (hl : l.Nodup) :
    ∀ (d : rf5c400_device) (b : buffers),
    let r := (l.foldl (update_step T n) (d, b)).1
    r.space = d.space ∧ r.m_rf5c400_status = d.m_rf5c400_status ∧
    r.m_ext_mem_address = d.m_ext_mem_address ∧ r.m_ext_mem_data = d.m_ext_mem_data ∧
    r.m_req_channel = d.m_req_channel ∧
    ∀ c, r.m_channels c =
      if c ∈ l then chan_after T d.space (d.m_channels c) n else d.m_channels c := by
  induction l with
  | nil => intro d b; simp
  | cons a t ih =>
    intro d b
    have hnd := List.nodup_cons.mp hl
    have h := ih hnd.2 (update_step T n (d, b) a).1 (update_step T n (d, b) a).2
    simp only [List.foldl_cons] at h ⊢
    obtain ⟨h1, h2, h3, h4, h5, h6⟩ := h
    refine ⟨h1, h2, h3, h4, h5, ?_⟩
    intro c
    rw [h6 c]
    by_cases hc : c = a
    · subst hc
      simp [hnd.1, update_step, chan_after]
      exact update_channel_indep _ _ _ _ _ _
    · by_cases hct : c ∈ t
      · simp [hct, update_step, Function.update_noteq hc]
      · simp [hct, hc, update_step, Function.update_noteq hc]

/-- Every voice is processed exactly once, on its own record. -/
theorem sound_stream_update_channel (T : tables) (d : rf5c400_device) (n : Nat) (c : Fin 32) :
    (sound_stream_update T d n).1.m_channels c = chan_after T d.space (d.m_channels c) n := by
  have h := (foldl_update_step T n (List.finRange 32) (List.nodup_finRange 32) d
    (fun _ => 0, fun _ => 0)).2.2.2.2.2 c
  simpa [sound_stream_update, List.mem_finRange] using h

theorem sound_stream_update_space (T : tables) (d : rf5c400_device) (n : Nat) :
    (sound_stream_update T d n).1.space = d.space :=
  (foldl_update_step T n (List.finRange 32) (List.nodup_finRange 32) d
    (fun _ => 0, fun _ => 0)).1

theorem run_samples_succ (T : tables) (space : Nat → Nat) (channel : rf5c400_channel)
    (k : Nat) : ∀ (i : Nat) (v : voice) (b : buffers),
    (run_samples T space channel (k + 1) i v b).1 =
      if (run_samples T space channel k i v b).1.env_phase = Phase.PHASE_NONE
      then (run_samples T space channel k i v b).1
      else (tick T space channel (run_samples T space channel k i v b).1).1 := by
  induction k with
  | zero =>
    intro i v b
    by_cases h : v.env_phase = Phase.PHASE_NONE <;> simp [run_samples, h]
  | succ k ih =>
    intro i v b
    by_cases h : v.env_phase = Phase.PHASE_NONE
    · simp [run_samples, h]
    · rw [run_samples]
      simp only [h, if_false]
      rw [ih]
      conv_rhs => rw [run_samples]
      simp only [h, if_false]

theorem voice_after_zero (T : tables) (space : Nat → Nat) (channel : rf5c400_channel) :
    voice_after T space channel 0 = load_locals channel := rfl

/-- Sample `n + 1` of a block is one more loop iteration applied to the locals left by the
first `n` samples, unless the loop has stopped. -/
theorem voice_after_succ (T : tables) (space : Nat → Nat) (channel : rf5c400_channel)
    (n : Nat) :
    voice_after T space channel (n + 1) =
      if (voice_after T space channel n).env_phase = Phase.PHASE_NONE
      then voice_after T space channel n
      else (tick T space channel (voice_after T space channel n)).1 :=
  run_samples_succ T space channel n 0 _ _

theorem chan_after_eq (T : tables) (space : Nat → Nat) (channel : rf5c400_channel) (n : Nat) :
    chan_after T space channel n =
      if chan_start channel = chan_end channel then channel
      else commit_locals channel (voice_after T space channel n) := by
  unfold chan_after update_channel voice_after
  by_cases h : chan_start channel = chan_end channel <;> simp [h]

theorem commit_load (channel : rf5c400_channel) :
    commit_locals channel (load_locals channel) = channel := rfl

theorem chan_after_zero (T : tables) (space : Nat → Nat) (channel : rf5c400_channel) :
    chan_after T space channel 0 = channel := by
  rw [chan_after_eq, voice_after_zero, commit_load]; simp

theorem tick_fst (T : tables) (space : Nat → Nat) (channel : rf5c400_channel) (v : voice) :
    (tick T space channel v).1 =
      { env_update T channel v with
        pos := advance_pos v.pos channel.step (chan_start channel) (chan_end channel)
          (chan_loop channel) } := rfl

/-- The loop stops for good once the phase is `PHASE_NONE`. -/
theorem voice_after_none (T : tables) (space : Nat → Nat) (channel : rf5c400_channel)
    (h : channel.env_phase = Phase.PHASE_NONE) (n : Nat) :
    voice_after T space channel n = load_locals channel := by
  cases n with
  | zero => rfl
  | succ n => simp [voice_after, run_samples, load_locals, h]

/-! ## Properties of register writes -/

/-- A per-voice register write touches neither the position nor the envelope state. -/
theorem write_channel_reg_env (c : rf5c400_channel) (reg data : Nat) :
    (write_channel_reg c reg data).pos = c.pos ∧
    (write_channel_reg c reg data).env_phase = c.env_phase ∧
    (write_channel_reg c reg data).env_level = c.env_level ∧
    (write_channel_reg c reg data).env_step = c.env_step ∧
    (write_channel_reg c reg data).env_scale = c.env_scale := by
  simp only [write_channel_reg, apply_ite rf5c400_channel.pos,
    apply_ite rf5c400_channel.env_phase, apply_ite rf5c400_channel.env_level,
    apply_ite rf5c400_channel.env_step, apply_ite rf5c400_channel.env_scale, ite_self,
    and_self]

/-- The voices after a register write: only channel control (offset `0x01`) and the
per-voice window (`offset >= 0x400`) touch a voice, and only the addressed one. -/
theorem rf5c400_w_channels (T : tables) (d : rf5c400_device) (offset data : Nat) :
    (rf5c400_w T d offset data).m_channels =
      if offset < 0x400 then
        if offset = 0x01 then
          Function.update d.m_channels (chan_index (data % 65536))
            (channel_control T (d.m_channels (chan_index (data % 65536))) (data % 65536))
        else d.m_channels
      else
        Function.update d.m_channels (chan_index (offset >>> 5))
          (write_channel_reg (d.m_channels (chan_index (offset >>> 5))) (offset &&& 0x1f)
            (data % 65536)) := by
  unfold rf5c400_w
  simp only
  split_ifs <;> first | rfl | omega

/-- The voice addressed by a channel-control write. -/
theorem rf5c400_w_control (T : tables) (d : rf5c400_device) (data : Nat)
    (hdata : data < 65536) :
    (rf5c400_w T d 0x01 data).m_channels (chan_index data) =
      channel_control T (d.m_channels (chan_index data)) data := by
  rw [rf5c400_w_channels, Nat.mod_eq_of_lt hdata]
  simp

theorem key_off_eq (T : tables) (c : rf5c400_channel) :
    key_off T c =
      if c.env_phase = Phase.PHASE_NONE then c
      else { c with env_phase := Phase.PHASE_RELEASE,
                    env_step := if c.release &&& 0x0080 ≠ 0 then 0
                      else T.rr { c with env_phase := Phase.PHASE_RELEASE } } := by
  by_cases hp : c.env_phase = Phase.PHASE_NONE
  · simp [key_off, hp]
  · by_cases hr : c.release &&& 0x0080 = 0 <;> simp [key_off, hp, hr]

theorem channel_control_phase (T : tables) (c : rf5c400_channel) (data : Nat) :
    (data &&& 0x60 = 0x60 ∧ (channel_control T c data).env_phase = Phase.PHASE_ATTACK) ∨
    (data &&& 0x60 = 0x40 ∧ c.env_phase ≠ Phase.PHASE_NONE ∧
      (channel_control T c data).env_phase = Phase.PHASE_RELEASE) ∨
    (data &&& 0x60 = 0x40 ∧ c.env_phase = Phase.PHASE_NONE ∧
      (channel_control T c data).env_phase = Phase.PHASE_NONE) ∨
    (data &&& 0x60 ≠ 0x60 ∧ data &&& 0x60 ≠ 0x40 ∧
      (channel_control T c data).env_phase = Phase.PHASE_NONE) := by
  unfold channel_control
  by_cases h60 : data &&& 0x60 = 0x60
  · left; simp [h60, key_on]
  · by_cases h40 : data &&& 0x60 = 0x40
    · right
      by_cases hp : c.env_phase = Phase.PHASE_NONE
      · right; left
        simp [h40, key_off_eq, hp]
      · left
        simp [h40, key_off_eq, hp]
    · right; right; right
      simp [h60, h40, mute]

theorem chan_index_eq_iff (x : Nat) (ch : Fin 32) :
    chan_index x = ch ↔ x &&& 0x1f = ch.val := by
  constructor
  · intro h; rw [← h]; rfl
  · intro h; exact Fin.ext h

/-! ## Envelope invariant -/

theorem env_update_ok (T : tables) (hT : rates_signed T) (channel : rf5c400_channel)
    (hs : channel.env_scale = 1) (v : voice) (hp : v.env_phase ≠ Phase.PHASE_NONE)
    (hv : locals_ok v) : locals_ok (env_update T channel v) := by
  obtain ⟨h1, h2, h3, h4, h5⟩ := hv
  obtain ⟨-, hdr, -⟩ := hT
  unfold env_update
  cases hph : v.env_phase with
  | PHASE_NONE => exact absurd hph hp
  | PHASE_ATTACK =>
    have hstep := h4 hph
    simp only
    split_ifs with ha hd
    · refine ⟨by simp [hs], by norm_num, le_refl _, by simp, fun _ => le_refl _⟩
    · refine ⟨by simp [hs], by norm_num, le_refl _, by simp, fun _ => hdr channel⟩
    · refine ⟨h1, by simp only; linarith, by simp only; linarith [not_le.mp ha],
        fun _ => by simpa using hstep, ?_⟩
      intro h; simp [hph] at h
  | PHASE_DECAY =>
    have hstep := h5 (Or.inl hph)
    simp only
    split_ifs with ha
    · refine ⟨rfl, le_refl _, by norm_num, by simp, by simp⟩
    · refine ⟨h1, by simp only; linarith [not_le.mp ha], by simp only; linarith,
        by simp [hph], fun _ => by simpa using hstep⟩
  | PHASE_RELEASE =>
    have hstep := h5 (Or.inr hph)
    simp only
    split_ifs with ha
    · refine ⟨rfl, le_refl _, by norm_num, by simp, by simp⟩
    · refine ⟨h1, by simp only; linarith [not_le.mp ha], by simp only; linarith,
        by simp [hph], fun _ => by simpa using hstep⟩

theorem tick_ok (T : tables) (hT : rates_signed T) (space : Nat → Nat)
    (channel : rf5c400_channel) (hs : channel.env_scale = 1) (v : voice)
    (hp : v.env_phase ≠ Phase.PHASE_NONE) (hv : locals_ok v) :
    locals_ok (tick T space channel v).1 := by
  rw [tick_fst]
  exact env_update_ok T hT channel hs v hp hv

theorem load_locals_ok (channel : rf5c400_channel) (h : env_ok channel) :
    locals_ok (load_locals channel) := by
  obtain ⟨h1, h2, h3, h4, h5⟩ := h
  exact ⟨by simp [load_locals, h1], h2, h3, h4, h5⟩

theorem voice_after_ok (T : tables) (hT : rates_signed T) (space : Nat → Nat)
    (channel : rf5c400_channel) (h : env_ok channel) (n : Nat) :
    locals_ok (voice_after T space channel n) := by
  induction n with
  | zero => exact load_locals_ok channel h
  | succ n ih =>
    rw [voice_after_succ]
    split_ifs with hp
    · exact ih
    · exact tick_ok T hT space channel h.1 _ hp ih

theorem commit_locals_ok (channel : rf5c400_channel) (hs : channel.env_scale = 1) (v : voice)
    (hv : locals_ok v) : env_ok (commit_locals channel v) := by
  obtain ⟨-, h2, h3, h4, h5⟩ := hv
  exact ⟨hs, h2, h3, h4, h5⟩

theorem chan_after_ok (T : tables) (hT : rates_signed T) (space : Nat → Nat)
    (channel : rf5c400_channel) (h : env_ok channel) (n : Nat) :
    env_ok (chan_after T space channel n) := by
  rw [chan_after_eq]
  split_ifs
  · exact h
  · exact commit_locals_ok channel h.1 _ (voice_after_ok T hT space channel h n)

theorem reset_channel_ok (chan : rf5c400_channel) : env_ok (reset_channel chan) := by
  refine ⟨rfl, le_refl _, by simp [reset_channel], ?_, ?_⟩ <;> simp [reset_channel]

theorem key_on_ok (T : tables) (hT : rates_signed T) (c : rf5c400_channel) (h : env_ok c) :
    env_ok (key_on T c) := by
  refine ⟨h.1, le_refl _, by simp [key_on], fun _ => hT.1 _, ?_⟩
  simp [key_on]

theorem key_off_ok (T : tables) (hT : rates_signed T) (c : rf5c400_channel) (h : env_ok c) :
    env_ok (key_off T c) := by
  by_cases hp : c.env_phase = Phase.PHASE_NONE
  · simpa [key_off, hp] using h
  · by_cases hr : c.release &&& 0x0080 = 0
    · simp only [key_off, hp, hr, ne_eq, not_false_eq_true, not_true_eq_false, if_true,
        if_false]
      exact ⟨h.1, h.2.1, h.2.2.1, by simp, fun _ => hT.2.2 _⟩
    · simp only [key_off, hp, hr, ne_eq, not_false_eq_true, if_true]
      exact ⟨h.1, h.2.1, h.2.2.1, by simp, fun _ => le_refl _⟩

theorem mute_ok (c : rf5c400_channel) (h : env_ok c) : env_ok (mute c) := by
  refine ⟨h.1, le_refl _, by simp [mute], ?_, ?_⟩ <;> simp [mute]

theorem write_channel_reg_ok (c : rf5c400_channel) (reg data : Nat) (h : env_ok c) :
    env_ok (write_channel_reg c reg data) := by
  obtain ⟨-, h2, h3, h4, h5⟩ := write_channel_reg_env c reg data
  unfold env_ok
  rw [h2, h3, h4, h5]
  exact h

theorem channel_control_ok (T : tables) (hT : rates_signed T) (c : rf5c400_channel)
    (data : Nat) (h : env_ok c) : env_ok (channel_control T c data) := by
  unfold channel_control
  split_ifs
  · exact key_on_ok T hT c h
  · exact key_off_ok T hT c h
  · exact mute_ok c h

theorem rf5c400_w_ok (T : tables) (hT : rates_signed T) (d : rf5c400_device)
    (offset data : Nat) (h : ∀ c, env_ok (d.m_channels c)) :
    ∀ c, env_ok ((rf5c400_w T d offset data).m_channels c) := by
  have hupd : ∀ (ch : Fin 32) (x : rf5c400_channel), env_ok x →
      ∀ c, env_ok (Function.update d.m_channels ch x c) := by
    intro ch x hx c
    by_cases hc : c = ch
    · subst hc; simpa using hx
    · simpa [Function.update_noteq hc] using h c
  intro c
  rw [rf5c400_w_channels]
  split_ifs
  · exact hupd _ _ (channel_control_ok T hT _ _ (h _)) c
  · exact h c
  · exact hupd _ _ (write_channel_reg_ok _ _ _ (h _)) c

/-- Every voice of every reachable device state satisfies the envelope invariant. -/
theorem reachable_env_ok (T : tables) (hT : rates_signed T) (d : rf5c400_device)
    (hd : Reachable T d) : ∀ c, env_ok (d.m_channels c) := by
  induction hd with
  | start d => intro c; exact reset_channel_ok _
  | write d offset data _ ih => exact rf5c400_w_ok T hT d offset data ih
  | update d n _ ih =>
    intro c
    rw [sound_stream_update_channel]
    exact chan_after_ok T hT d.space _ (ih c) n

/-! ## Phase and level steps of one sample -/

theorem env_update_phase (T : tables) (channel : rf5c400_channel) (v : voice) :
    (env_update T channel v).env_phase = v.env_phase ∨
    (v.env_phase = Phase.PHASE_ATTACK ∧
      (env_update T channel v).env_phase = Phase.PHASE_DECAY) ∨
    (v.env_phase = Phase.PHASE_DECAY ∧
      (env_update T channel v).env_phase = Phase.PHASE_NONE) ∨
    (v.env_phase = Phase.PHASE_RELEASE ∧
      (env_update T channel v).env_phase = Phase.PHASE_NONE) := by
  unfold env_update
  cases hph : v.env_phase <;> simp only <;> (try split_ifs) <;> simp

/-- The phase of a voice after `n + 1` samples of a block, against its phase after `n`
samples: unchanged, or one step of the envelope state machine. -/
theorem chan_after_phase_step (T : tables) (space : Nat → Nat) (channel : rf5c400_channel)
    (n : Nat) :
    (chan_after T space channel (n + 1)).env_phase =
      (chan_after T space channel n).env_phase ∨
    ((chan_after T space channel n).env_phase = Phase.PHASE_ATTACK ∧
      (chan_after T space channel (n + 1)).env_phase = Phase.PHASE_DECAY) ∨
    ((chan_after T space channel n).env_phase = Phase.PHASE_DECAY ∧
      (chan_after T space channel (n + 1)).env_phase = Phase.PHASE_NONE) ∨
    ((chan_after T space channel n).env_phase = Phase.PHASE_RELEASE ∧
      (chan_after T space channel (n + 1)).env_phase = Phase.PHASE_NONE) := by
  rw [chan_after_eq, chan_after_eq]
  by_cases h : chan_start channel = chan_end channel
  · simp [h]
  · simp only [h, if_false, commit_locals]
    rw [voice_after_succ]
    by_cases hp : (voice_after T space channel n).env_phase = Phase.PHASE_NONE
    · simp [hp]
    · simp only [hp, if_false, tick_fst]
      exact env_update_phase T channel _

theorem env_update_mono (T : tables) (channel : rf5c400_channel) (v : voice)
    (hv : locals_ok v) :
    (v.env_phase = Phase.PHASE_ATTACK → v.env_level ≤ (env_update T channel v).env_level) ∧
    (v.env_phase = Phase.PHASE_DECAY ∨ v.env_phase = Phase.PHASE_RELEASE →
      (env_update T channel v).env_level ≤ v.env_level) := by
  obtain ⟨h1, h2, h3, h4, h5⟩ := hv
  unfold env_update
  cases hph : v.env_phase with
  | PHASE_NONE => simp
  | PHASE_ATTACK =>
    have hstep := h4 hph
    simp only
    split_ifs with ha hd
    · exact ⟨fun _ => h3, fun h => by simp at h⟩
    · exact ⟨fun _ => h3, fun h => by simp at h⟩
    · refine ⟨fun _ => ?_, fun h => by simp at h⟩
      show v.env_level ≤ v.env_level + v.env_rstep
      linarith
  | PHASE_DECAY =>
    have hstep := h5 (Or.inl hph)
    simp only
    split_ifs with ha
    · exact ⟨fun h => by simp at h, fun _ => h2⟩
    · refine ⟨fun h => by simp at h, fun _ => ?_⟩
      show v.env_level + v.env_rstep ≤ v.env_level
      linarith
  | PHASE_RELEASE =>
    have hstep := h5 (Or.inr hph)
    simp only
    split_ifs with ha
    · exact ⟨fun h => by simp at h, fun _ => h2⟩
    · refine ⟨fun h => by simp at h, fun _ => ?_⟩
      show v.env_level + v.env_rstep ≤ v.env_level
      linarith

/-- Sample `n + 1` of a block moves the level of a voice in the direction of its phase
after sample `n`. -/
theorem chan_after_level_step (T : tables) (hT : rates_signed T) (space : Nat → Nat)
    (channel : rf5c400_channel) (h : env_ok channel) (n : Nat) :
    ((chan_after T space channel n).env_phase = Phase.PHASE_ATTACK →
      (chan_after T space channel n).env_level ≤
        (chan_after T space channel (n + 1)).env_level) ∧
    ((chan_after T space channel n).env_phase = Phase.PHASE_DECAY ∨
      (chan_after T space channel n).env_phase = Phase.PHASE_RELEASE →
      (chan_after T space channel (n + 1)).env_level ≤
        (chan_after T space channel n).env_level) := by
  rw [chan_after_eq, chan_after_eq]
  by_cases hse : chan_start channel = chan_end channel
  · simp [hse]
  · simp only [hse, if_false, commit_locals]
    rw [voice_after_succ]
    by_cases hp : (voice_after T space channel n).env_phase = Phase.PHASE_NONE
    · simp [hp]
    · simp only [hp, if_false, tick_fst]
      exact env_update_mono T channel _ (voice_after_ok T hT space channel h n)

/-! ## Position advance and loop wrap -/

theorem and_mask40 (x : Nat) : x &&& 0xFFFFFF0000 = (x / 65536 % 16777216) * 65536 := by
  have hC : (0xFFFFFF0000 : Nat) = (2 ^ 24 - 1) <<< 16 := by decide
  have hR : (x / 65536 % 16777216) * 65536 = ((x >>> 16) % 2 ^ 24) <<< 16 := by
    rw [Nat.shiftLeft_eq, Nat.shiftRight_eq_div_pow]; norm_num
  rw [hC, hR]
  apply Nat.eq_of_testBit_eq
  intro i
  simp only [Nat.testBit_and, Nat.testBit_shiftLeft, Nat.testBit_two_pow_sub_one,
    Nat.testBit_mod_two_pow, Nat.testBit_shiftRight]
  by_cases h : 16 ≤ i
  · have : 16 + (i - 16) = i := by omega
    simp [h, this, Bool.and_comm]
  · simp [h]

/-- The assembled start address of a voice with a 16-bit `startL` has 24 bits. -/
theorem chan_start_lt (c : rf5c400_channel) (h : c.startL < 65536) :
    chan_start c < 2 ^ 24 := by
  unfold chan_start
  apply Nat.or_lt_two_pow
  · have : c.startH &&& 0xFF00 ≤ 0xFF00 := Nat.and_le_right
    omega
  · omega

/-- The position stored by one loop iteration is `advance_pos` of the old position. -/
theorem tick_pos (T : tables) (space : Nat → Nat) (channel : rf5c400_channel) (v : voice) :
    (tick T space channel v).1.pos =
      advance_pos v.pos channel.step (chan_start channel) (chan_end channel)
        (chan_loop channel) := rfl

/-- One sample of an active voice stores `advance_pos` of its position. -/
theorem chan_after_one_pos (T : tables) (space : Nat → Nat) (channel : rf5c400_channel)
    (hp : channel.env_phase ≠ Phase.PHASE_NONE)
    (hse : chan_start channel ≠ chan_end channel) :
    (chan_after T space channel 1).pos =
      advance_pos channel.pos channel.step (chan_start channel) (chan_end channel)
        (chan_loop channel) := by
  rw [chan_after_eq, voice_after_succ, voice_after_zero]
  have hl : (load_locals channel).env_phase ≠ Phase.PHASE_NONE := hp
  simp only [hse, hl, if_false, commit_locals, tick_pos]
  rfl

/-- The clamp of the loop wrap when the subtraction does not borrow: if `(p >> 16) > end`,
`loop << 16 <= p` and `p - (loop << 16) < start << 16`, the stored position is
`start << 16`. -/
theorem advance_pos_clamps (pos step start end_ loop : Nat)
    (hwrap : end_ < ((pos + step) % 2 ^ 64) >>> 16)
    (hle : loop <<< 16 ≤ (pos + step) % 2 ^ 64)
    (hlow : (pos + step) % 2 ^ 64 - loop <<< 16 < start <<< 16) :
    advance_pos pos step start end_ loop = start <<< 16 := by
  unfold advance_pos
  simp only [gt_iff_lt, hwrap, if_true, and_mask40]
  have hL : (loop <<< 16) % 2 ^ 64 = loop <<< 16 := by
    apply Nat.mod_eq_of_lt
    have : (pos + step) % 2 ^ 64 < 2 ^ 64 := Nat.mod_lt _ (by norm_num)
    omega
  rw [hL]
  split_ifs with h
  · rfl
  · omega

/-! ## The concrete inputs evaluated -/

theorem demo_tables_signed : rates_signed demo_tables :=
  ⟨fun _ => by norm_num [demo_tables], fun _ => by norm_num [demo_tables],
   fun _ => by norm_num [demo_tables]⟩

theorem attack_device_channel :
    attack_device.m_channels 0 =
      { zero_channel with endL := 1, env_phase := Phase.PHASE_ATTACK, env_step := 1 } := by
  decide

theorem attack_device_reachable : Reachable demo_tables attack_device :=
  Reachable.write _ _ _ (Reachable.write _ _ _ (Reachable.start zero_device))

theorem decay_device_channel :
    decay_device.m_channels 0 =
      { zero_channel with endL := 1, pos := 0, env_phase := Phase.PHASE_DECAY, env_level := 1,
                          env_step := -1 / 100 } := by
  unfold decay_device
  rw [sound_stream_update_channel, chan_after_eq, attack_device_channel]
  simp [chan_start, chan_end, zero_channel, voice_after, run_samples, load_locals, tick,
    env_update, commit_locals, advance_pos, demo_tables]

theorem decay_device_reachable : Reachable demo_tables decay_device :=
  Reachable.update _ 1 (Reachable.write _ _ _ (Reachable.write _ _ _
    (Reachable.start zero_device)))

theorem underflow_device_channel :
    underflow_device.m_channels 0 =
      { zero_channel with endL := 1, loopL := 3, freq := 0x5000, step := 0x10000,
                          env_phase := Phase.PHASE_ATTACK, env_step := 1 } := by
  decide

theorem underflow_device_reachable : Reachable demo_tables underflow_device :=
  Reachable.write _ _ _ (Reachable.write _ _ _ (Reachable.write _ _ _
    (Reachable.write _ _ _ (Reachable.start zero_device))))

/-! ## Sample decoding -/

theorem xor_7fff (m : Nat) (h : m < 32768) : m ^^^ 0x7FFF = 0x7FFF - m := by
  have h15 : m < 2 ^ 15 := by simpa using h
  have h1 : (0x7FFF : Nat) - m = 2 ^ 15 - (m + 1) := by omega
  rw [h1]
  apply Nat.eq_of_testBit_eq
  intro i
  rw [Nat.testBit_two_pow_sub_succ h15, Nat.testBit_xor,
    show (0x7FFF : Nat) = 2 ^ 15 - 1 by norm_num, Nat.testBit_two_pow_sub_one]
  by_cases hi : i < 15
  · simp [hi]
  · have hlt : m < 2 ^ i := lt_of_lt_of_le h15 (Nat.pow_le_pow_right (by norm_num) (by omega))
    simp [hi, Nat.testBit_lt_two_pow hlt]

theorem and_8000_eq_zero (n : Nat) (h : n < 32768) : n &&& 0x8000 = 0 := by
  rw [show (0x8000 : Nat) = 2 ^ 15 by norm_num, Nat.and_two_pow]
  simp [Nat.testBit_lt_two_pow (show n < 2 ^ 15 by simpa using h)]

theorem ldiff_8000_ne_zero (m : Nat) (h : m < 32768) : Nat.ldiff 0x8000 m ≠ 0 := by
  intro h0
  have h15 := Nat.testBit_ldiff 0x8000 m 15
  rw [h0, Nat.testBit_lt_two_pow (show m < 2 ^ 15 by simpa using h)] at h15
  revert h15
  decide

/-- Folding of a non-negative 16-bit sample: bit 15 is clear, nothing happens. -/
theorem fold_sample_nonneg (n : Nat) (h : n < 32768) : fold_sample (n : Int) = n := by
  have hl : Int.land (n : Int) 0x8000 = 0 := by
    show ((n &&& 0x8000 : Nat) : Int) = 0
    rw [and_8000_eq_zero n h]; rfl
  simp [fold_sample, hl]

/-- Folding of a negative 16-bit sample `-(m + 1)`: bit 15 is set and the XOR with
`0x7FFF` gives `-(0x7FFF - m + 1)`. -/
theorem fold_sample_neg (m : Nat) (h : m < 32768) :
    fold_sample (Int.negSucc m) = Int.xor (Int.negSucc m) 0x7FFF ∧
    fold_sample (Int.negSucc m) = Int.negSucc (0x7FFF - m) := by
  have hl : Int.land (Int.negSucc m) 0x8000 ≠ 0 := by
    show ((Nat.ldiff 0x8000 m : Nat) : Int) ≠ 0
    exact_mod_cast ldiff_8000_ne_zero m h
  have hx : Int.xor (Int.negSucc m) 0x7FFF = Int.negSucc (0x7FFF - m) := by
    show Int.negSucc (m ^^^ 0x7FFF) = _
    rw [xor_7fff m h]
  simp only [fold_sample, hl, ne_eq, not_false_eq_true, if_true]
  exact ⟨trivial, hx⟩

/-- The value of a word read as `int16_t` lies in the 16-bit signed range. -/
theorem to_int16_range (w : Nat) : -32768 ≤ to_int16 w ∧ to_int16 w ≤ 32767 := by
  unfold to_int16
  split_ifs <;> omega

theorem decode_sample_range (type tmp : Nat) :
    -32768 ≤ decode_sample type tmp ∧ decode_sample type tmp ≤ 32767 := by
  unfold decode_sample
  split_ifs
  · exact to_int16_range _
  · exact to_int16_range _
  · exact to_int16_range _
  · constructor <;> norm_num

/-- The integers handed to `add_int` by one loop iteration are computed from the folded
sample: volume scaling, shift by 9, envelope level, pan. -/
theorem tick_outputs (T : tables) (space : Nat → Nat) (channel : rf5c400_channel)
    (v : voice) :
    (tick T space channel v).2.1 =
      trunc ((trunc ((((folded_sample space channel v *
        T.volume_table (channel.volume &&& 0xFF)) >>> 9 : Int) : ℚ) *
        (env_update T channel v).env_level) : ℚ) * T.pan_table (channel.pan &&& 0xFF)) ∧
    (tick T space channel v).2.2 =
      trunc ((trunc ((((folded_sample space channel v *
        T.volume_table (channel.volume &&& 0xFF)) >>> 9 : Int) : ℚ) *
        (env_update T channel v).env_level) : ℚ) *
        T.pan_table ((channel.pan >>> 8) % 256)) :=
  ⟨rfl, rfl⟩

/-- The word `0x8123` decoded with the 16-bit type is `-32477` and folds to `-292`. -/
theorem fold_decode_8123 : fold_sample (decode_sample 0x0000 0x8123) = -292 := by
  have hd : decode_sample 0x0000 0x8123 = Int.negSucc 32476 := by decide
  rw [hd, (fold_sample_neg 32476 (by decide)).2]
  decide

/-! ## Properties of register reads -/

theorem sound_stream_update_req_channel (T : tables) (d : rf5c400_device) (n : Nat) :
    (sound_stream_update T d n).1.m_req_channel = d.m_req_channel :=
  (foldl_update_step T n (List.finRange 32) (List.nodup_finRange 32) d
    (fun _ => 0, fun _ => 0)).2.2.2.2.1

/-- A write to offset `0x08` latches the voice number and touches no voice. -/
theorem rf5c400_w_req (T : tables) (d : rf5c400_device) (data : Nat) :
    (rf5c400_w T d 0x08 data).m_req_channel = chan_index (data % 65536) ∧
    (rf5c400_w T d 0x08 data).m_channels = d.m_channels ∧
    (rf5c400_w T d 0x08 data).space = d.space := by
  refine ⟨?_, ?_, ?_⟩ <;> simp [rf5c400_w]

/-- The position poll: state and value of a read of offset `0x09`. -/
theorem rf5c400_r_poll (T : tables) (d : rf5c400_device) (pending : Nat) :
    (rf5c400_r T d 0x09 pending).1 = (sound_stream_update T d pending).1 ∧
    (rf5c400_r T d 0x09 pending).2 =
      if ((sound_stream_update T d pending).1.m_channels d.m_req_channel).env_phase
          = Phase.PHASE_NONE then 0
      else ((((((sound_stream_update T d pending).1.m_channels d.m_req_channel).pos >>> 16)
        + 2 ^ 64
        - chan_start ((sound_stream_update T d pending).1.m_channels d.m_req_channel) % 2 ^ 32)
        % 2 ^ 64) >>> 6) % 65536 := by
  unfold rf5c400_r
  simp only [show (9 : Nat) < 0x400 by norm_num, show ¬ ((9 : Nat) = 0x00) by norm_num,
    show ¬ ((9 : Nat) = 0x04) by norm_num, if_true, if_false,
    sound_stream_update_req_channel]
  split_ifs <;> exact ⟨rfl, rfl⟩

theorem poll_value (T : tables) (d : rf5c400_device) (data pending : Nat)
    (hdata : data < 65536) :
    (rf5c400_r T (rf5c400_w T d 0x08 data) 0x09 pending).2 =
      if (polled_channel T d data pending).env_phase = Phase.PHASE_NONE then 0
      else (((((polled_channel T d data pending).pos >>> 16) + 2 ^ 64
        - chan_start (polled_channel T d data pending) % 2 ^ 32) % 2 ^ 64) >>> 6) % 65536 := by
  rw [(rf5c400_r_poll T _ pending).2, (rf5c400_w_req T d data).1, Nat.mod_eq_of_lt hdata]
  rfl

theorem polled_channel_far : polled_channel demo_tables far_device 0 0 = far_channel := by
  unfold polled_channel
  rw [sound_stream_update_channel, chan_after_zero, (rf5c400_w_req _ _ _).2.1]
  rfl

/-- A write to the per-voice window (`offset >= 0x400`) replaces the addressed voice by
`write_channel_reg` of it and keeps everything else. -/
theorem rf5c400_w_window (T : tables) (d : rf5c400_device) (offset data : Nat)
    (hoff : 0x400 ≤ offset) :
    (rf5c400_w T d offset data).m_channels =
      Function.update d.m_channels (chan_index (offset >>> 5))
        (write_channel_reg (d.m_channels (chan_index (offset >>> 5))) (offset &&& 0x1f)
          (data % 65536)) ∧
    (rf5c400_w T d offset data).m_rf5c400_status = d.m_rf5c400_status ∧
    (rf5c400_w T d offset data).m_ext_mem_address = d.m_ext_mem_address ∧
    (rf5c400_w T d offset data).m_ext_mem_data = d.m_ext_mem_data ∧
    (rf5c400_w T d offset data).m_req_channel = d.m_req_channel ∧
    (rf5c400_w T d offset data).space = d.space := by
  unfold rf5c400_w
  simp only [not_lt.mpr hoff, if_false]
  exact ⟨trivial, trivial, trivial, trivial, trivial, trivial⟩

theorem device_ext (a b : rf5c400_device) (h1 : a.m_channels = b.m_channels)
    (h2 : a.m_rf5c400_status = b.m_rf5c400_status)
    (h3 : a.m_ext_mem_address = b.m_ext_mem_address)
    (h4 : a.m_ext_mem_data = b.m_ext_mem_data) (h5 : a.m_req_channel = b.m_req_channel)
    (h6 : a.space = b.space) : a = b := by
  cases a
  cases b
  simp only [rf5c400_device.mk.injEq]
  exact ⟨h1, h2, h3, h4, h5, h6⟩

/-- The field selected by each register number of the per-voice window. -/
theorem write_channel_reg_cases (c : rf5c400_channel) (reg data : Nat) :
    (reg = 0x00 → write_channel_reg c reg data = { c with startH := data }) ∧
    (reg = 0x01 → write_channel_reg c reg data = { c with startL := data }) ∧
    (reg = 0x03 → write_channel_reg c reg data = { c with endL := data }) ∧
    (reg = 0x04 → write_channel_reg c reg data = { c with endHloopH := data }) ∧
    (reg = 0x05 → write_channel_reg c reg data = { c with loopL := data }) ∧
    (reg = 0x06 → write_channel_reg c reg data = { c with pan := data }) ∧
    (reg = 0x07 → write_channel_reg c reg data = { c with effect := data }) ∧
    (reg = 0x08 → write_channel_reg c reg data = { c with volume := data }) ∧
    (reg = 0x09 → write_channel_reg c reg data = { c with attack := data }) ∧
    (reg = 0x0C → write_channel_reg c reg data = { c with decay := data }) ∧
    (reg = 0x0E → write_channel_reg c reg data = { c with release := data }) ∧
    (reg = 0x10 → write_channel_reg c reg data = { c with cutoff := data }) ∧
    (reg ≠ 0x00 → reg ≠ 0x01 → reg ≠ 0x02 → reg ≠ 0x03 → reg ≠ 0x04 → reg ≠ 0x05 →
      reg ≠ 0x06 → reg ≠ 0x07 → reg ≠ 0x08 → reg ≠ 0x09 → reg ≠ 0x0C → reg ≠ 0x0E →
      reg ≠ 0x10 → write_channel_reg c reg data = c) := by
  refine ⟨?_, ?_, ?_, ?_, ?_, ?_, ?_, ?_, ?_, ?_, ?_, ?_, ?_⟩
  case refine_13 =>
    intro h0 h1 h2 h3 h4 h5 h6 h7 h8 h9 hC hE h10
    simp [write_channel_reg, h0, h1, h2, h3, h4, h5, h6, h7, h8, h9, hC, hE, h10]
  all_goals
    intro h
    subst h
    simp [write_channel_reg]

/-- A block leaves a voice as a write-back of some locals into its old record. -/
theorem chan_after_commit (T : tables) (space : Nat → Nat) (channel : rf5c400_channel)
    (n : Nat) : ∃ v : voice, chan_after T space channel n = commit_locals channel v := by
  rw [chan_after_eq]
  by_cases h : chan_start channel = chan_end channel
  · exact ⟨load_locals channel, by simp [h, commit_load]⟩
  · exact ⟨voice_after T space channel n, by simp [h]⟩

/-! ## Table construction -/

theorem foldl_fill (f : Nat → ℚ) (n : Nat) : ∀ (s : Nat) (a : Nat → ℚ) (j : Nat),
    ((List.range' s n).foldl (fun a i => Function.update a i (f i)) a) j =
      if s ≤ j ∧ j < s + n then f j else a j := by
  induction n with
  | zero =>
    intro s a j
    have : ¬ (s ≤ j ∧ j < s) := by omega
    simp [this]
  | succ n ih =>
    intro s a j
    rw [List.range'_succ, List.foldl_cons, ih]
    by_cases hj : j = s
    · subst hj
      have h1 : ¬ (j + 1 ≤ j ∧ j < j + 1 + n) := by omega
      have h2 : j ≤ j ∧ j < j + (n + 1) := by omega
      simp [h1, h2]
    · by_cases hr : s + 1 ≤ j ∧ j < s + 1 + n
      · have h2 : s ≤ j ∧ j < s + (n + 1) := by omega
        simp [hr, h2]
      · have h2 : ¬ (s ≤ j ∧ j < s + (n + 1)) := by omega
        simp [hr, h2, Function.update_noteq hj]

/-- The array left by a fill loop: `f` on `[lo, hi)`, the old array elsewhere. -/
theorem fill_loop_apply (a : Nat → ℚ) (lo hi : Nat) (f : Nat → ℚ) (j : Nat) :
    fill_loop a lo hi f j = if lo ≤ j ∧ j < hi then f j else a j := by
  unfold fill_loop
  rw [foldl_fill]
  by_cases h : lo ≤ j ∧ j < hi
  · have h2 : lo ≤ j ∧ j < lo + (hi - lo) := by omega
    simp [h, h2]
  · have h2 : ¬ (lo ≤ j ∧ j < lo + (hi - lo)) := by omega
    simp [h, h2]

/-- The state of the volume loop after its first `n` iterations. -/
theorem volume_fold (p : ℚ) (vt : Nat → Int) (n : Nat) :
    (List.range n).foldl
      (fun (s : ℚ × (Nat → Int)) i => (s.1 / p, Function.update s.2 i (trunc s.1 % 65536)))
      (255, vt) =
    (255 / p ^ n, fun j => if j < n then trunc (255 / p ^ j) % 65536 else vt j) := by
  induction n with
  | zero => simp
  | succ n ih =>
    rw [List.range_succ, List.foldl_append, ih]
    simp only [List.foldl_cons, List.foldl_nil]
    refine Prod.ext ?_ ?_
    · simp only [pow_succ, div_div]
    · funext j
      by_cases hj : j = n
      · subst hj
        simp
      · have h1 : j < n + 1 ↔ j < n := by omega
        simp [Function.update_noteq hj, h1]

/-- Entry `i < 256` of the volume table is `uint16_t(255 / p ^ i)`. -/
theorem volume_table_entry (p : ℚ) (sqrt : ℚ → ℚ) (T : tables) (i : Nat) (hi : i < 256) :
    (init_static_tables p sqrt T).volume_table i = trunc (255 / p ^ i) % 65536 := by
  simp [init_static_tables, volume_loop, volume_fold, hi]

theorem trunc_of_nonneg (q : ℚ) (h : 0 ≤ q) : trunc q = ⌊q⌋ := by
  simp [trunc, h]

theorem volume_quotient_bounds (p : ℚ) (hp : 1 ≤ p) (i : Nat) :
    0 ≤ 255 / p ^ i ∧ 255 / p ^ i ≤ 255 ∧ 255 / p ^ (i + 1) ≤ 255 / p ^ i := by
  have hp0 : (0 : ℚ) < p := lt_of_lt_of_le one_pos hp
  have hpi : (0 : ℚ) < p ^ i := pow_pos hp0 i
  have h1 : (1 : ℚ) ≤ p ^ i := one_le_pow₀ hp
  refine ⟨by positivity, div_le_self (by norm_num) h1, ?_⟩
  have hle : p ^ i ≤ p ^ (i + 1) := by
    rw [pow_succ]
    nlinarith
  exact div_le_div_of_nonneg_left (by norm_num) hpi hle

/-- With a divisor `p >= 1`, entry `i < 256` of the volume table is the integer part of
`255 / p ^ i`. -/
theorem volume_table_floor (p : ℚ) (hp : 1 ≤ p) (sqrt : ℚ → ℚ) (T : tables) (i : Nat)
    (hi : i < 256) :
    (init_static_tables p sqrt T).volume_table i = ⌊255 / p ^ i⌋ := by
  obtain ⟨h0, h255, -⟩ := volume_quotient_bounds p hp i
  rw [volume_table_entry p sqrt T i hi, trunc_of_nonneg _ h0]
  apply Int.emod_eq_of_lt (Int.floor_nonneg.mpr h0)
  have : ⌊255 / p ^ i⌋ < 256 := Int.floor_lt.mpr (by push_cast; linarith)
  omega

/-- Entry `i <= 0x47` of the pan table. -/
theorem pan_table_low (p : ℚ) (sqrt : ℚ → ℚ) (T : tables) (i : Nat) (hi : i ≤ 0x47) :
    (init_static_tables p sqrt T).pan_table i =
      sqrt (((0x47 - i : Nat) : ℚ)) / sqrt 0x47 := by
  have h1 : ¬ (72 ≤ i ∧ i < 100) := by omega
  have h2 : i < 72 := by omega
  have hc : (((0x47 - i : Nat) : ℚ)) = 71 - (i : ℚ) := by
    rw [Nat.cast_sub hi]; norm_num
  simp [init_static_tables, pan_loops, fill_loop_apply, h1, h2, hc]

/-- Entries `0x48 .. 0x63` of the pan table. -/
theorem pan_table_high (p : ℚ) (sqrt : ℚ → ℚ) (T : tables) (i : Nat) (hlo : 0x48 ≤ i)
    (hhi : i ≤ 0x63) : (init_static_tables p sqrt T).pan_table i = 0 := by
  have h1 : 72 ≤ i ∧ i < 100 := by omega
  simp [init_static_tables, pan_loops, fill_loop_apply, h1]

theorem sqrt_approx_nat (a : Nat) :
    sqrt_approx (a : ℚ) = (Nat.sqrt (a * 1000000) : ℚ) / 1000 := by
  unfold sqrt_approx
  have h : ((a : ℚ) * 1000000) = ((a * 1000000 : Nat) : ℚ) := by push_cast; ring
  rw [h, Int.floor_natCast, Int.toNat_natCast]

theorem sqrt_approx_zero : sqrt_approx 0 = 0 := by
  have h := sqrt_approx_nat 0
  simpa using h

theorem sqrt_approx_mono (a b : Nat) (hab : a < b) (hb : b ≤ 0x47) :
    sqrt_approx (a : ℚ) < sqrt_approx (b : ℚ) := by
  rw [sqrt_approx_nat, sqrt_approx_nat]
  have hs : Nat.sqrt (a * 1000000) < Nat.sqrt (b * 1000000) := by
    have h1 : Nat.sqrt (a * 1000000) * Nat.sqrt (a * 1000000) ≤ a * 1000000 :=
      Nat.sqrt_le _
    have h2 : Nat.sqrt (a * 1000000) < 10000 := Nat.sqrt_lt.mpr (by omega)
    apply Nat.le_sqrt.mpr
    nlinarith
  have hq : (Nat.sqrt (a * 1000000) : ℚ) < (Nat.sqrt (b * 1000000) : ℚ) := by
    exact_mod_cast hs
  exact div_lt_div_of_pos_right hq (by norm_num)

/-- One sample of an active voice: the record after a block of one sample is the
write-back of one loop iteration on the loaded locals. -/
theorem chan_after_one (T : tables) (space : Nat → Nat) (channel : rf5c400_channel)
    (hp : channel.env_phase ≠ Phase.PHASE_NONE)
    (hse : chan_start channel ≠ chan_end channel) :
    chan_after T space channel 1 =
      commit_locals channel (tick T space channel (load_locals channel)).1 := by
  rw [chan_after_eq, voice_after_succ, voice_after_zero]
  have hl : (load_locals channel).env_phase ≠ Phase.PHASE_NONE := hp
  simp only [hse, hl, if_false]

/-! ## Splitting a block -/

theorem run_samples_none (T : tables) (space : Nat → Nat) (channel : rf5c400_channel)
    (k i : Nat) (v : voice) (b : buffers) (h : v.env_phase = Phase.PHASE_NONE) :
    run_samples T space channel k i v b = (v, b) := by
  cases k with
  | zero => rfl
  | succ k => simp [run_samples, h]

/-- Running `k1 + k2` iterations is running `k1` and then `k2` more from sample
`i + k1`. -/
theorem run_samples_append (T : tables) (space : Nat → Nat) (channel : rf5c400_channel)
    (k1 k2 : Nat) : ∀ (i : Nat) (v : voice) (b : buffers),
    run_samples T space channel (k1 + k2) i v b =
      run_samples T space channel k2 (i + k1) (run_samples T space channel k1 i v b).1
        (run_samples T space channel k1 i v b).2 := by
  induction k1 with
  | zero =>
    intro i v b
    simp [run_samples]
  | succ k1 ih =>
    intro i v b
    by_cases h : v.env_phase = Phase.PHASE_NONE
    · rw [run_samples_none T space channel _ i v b h,
        run_samples_none T space channel _ i v b h,
        run_samples_none T space channel _ _ v b h]
    · have e : k1 + 1 + k2 = (k1 + k2) + 1 := by omega
      rw [e, run_samples]
      simp only [h, if_false]
      rw [ih]
      conv_rhs => rw [run_samples]
      simp only [h, if_false]
      have e2 : i + 1 + k1 = i + (k1 + 1) := by omega
      rw [e2]

/-- The envelope step reads the voice record only through its registers and the decay
lookup. -/
theorem env_update_commit (T : tables) (channel : rf5c400_channel) (w v : voice)
    (hdr : T.dr (commit_locals channel w) = T.dr channel) :
    env_update T (commit_locals channel w) v = env_update T channel v := by
  unfold env_update
  rw [hdr]
  rfl

theorem tick_commit (T : tables) (space : Nat → Nat) (channel : rf5c400_channel)
    (w v : voice) (hdr : T.dr (commit_locals channel w) = T.dr channel) :
    tick T space (commit_locals channel w) v = tick T space channel v := by
  unfold tick
  rw [env_update_commit T channel w v hdr]
  rfl

theorem run_samples_commit (T : tables) (space : Nat → Nat) (channel : rf5c400_channel)
    (w : voice) (hdr : T.dr (commit_locals channel w) = T.dr channel) (k : Nat) :
    ∀ (i : Nat) (v : voice) (b : buffers),
    run_samples T space (commit_locals channel w) k i v b =
      run_samples T space channel k i v b := by
  induction k with
  | zero => intro i v b; rfl
  | succ k ih =>
    intro i v b
    rw [run_samples, run_samples, tick_commit T space channel w v hdr]
    by_cases h : v.env_phase = Phase.PHASE_NONE
    · simp [h]
    · simp only [h, if_false]
      exact ih _ _ _

/-- The cached `env_rstep` stays equal to `env_step * env_scale` through an envelope
step. -/
theorem env_update_rstep (T : tables) (channel : rf5c400_channel) (v : voice)
    (h : v.env_rstep = v.env_step * channel.env_scale) :
    (env_update T channel v).env_rstep =
      (env_update T channel v).env_step * channel.env_scale := by
  unfold env_update
  cases hph : v.env_phase <;> simp only <;> (try split_ifs) <;> simp [h]

theorem run_samples_rstep (T : tables) (space : Nat → Nat) (channel : rf5c400_channel)
    (k : Nat) : ∀ (i : Nat) (v : voice) (b : buffers),
    v.env_rstep = v.env_step * channel.env_scale →
    (run_samples T space channel k i v b).1.env_rstep =
      (run_samples T space channel k i v b).1.env_step * channel.env_scale := by
  induction k with
  | zero => intro i v b h; exact h
  | succ k ih =>
    intro i v b h
    rw [run_samples]
    by_cases hp : v.env_phase = Phase.PHASE_NONE
    · simp only [hp, if_true]; exact h
    · simp only [hp, if_false]
      apply ih
      rw [tick_fst]
      exact env_update_rstep T channel v h

/-- Reloading committed locals gives them back when the cached `env_rstep` is in step. -/
theorem load_commit (channel : rf5c400_channel) (w : voice)
    (h : w.env_rstep = w.env_step * channel.env_scale) :
    load_locals (commit_locals channel w) = w := by
  cases w
  simp only [load_locals, commit_locals] at h ⊢
  simp [h]

theorem add_int_concat_lt (N : Nat) (x y : Nat → ℚ) (j : Nat) (s : Int) (hj : j < N) :
    add_int (concat_buf N x y) j s = concat_buf N (add_int x j s) y := by
  funext i
  unfold add_int concat_buf
  by_cases hi : i = j
  · subst hi; simp [hj]
  · by_cases hN : i < N <;> simp [Function.update_noteq hi, hN]

theorem add_int_concat_ge (N : Nat) (x y : Nat → ℚ) (j : Nat) (s : Int) :
    add_int (concat_buf N x y) (N + j) s = concat_buf N x (add_int y j s) := by
  funext i
  unfold add_int concat_buf
  by_cases hi : i = N + j
  · subst hi
    have h1 : ¬ (N + j < N) := by omega
    have h2 : N + j - N = j := by omega
    simp only [h1, if_false, Function.update_same]
    rw [h2, Function.update_same]
  · by_cases hN : i < N
    · simp [Function.update_noteq hi, hN]
    · have h2 : i - N ≠ j := by omega
      simp [Function.update_noteq hi, hN, Function.update_noteq h2]

/-- Iterations that end by sample `N` write only into the first part of a concatenated
buffer. -/
theorem run_samples_concat_left (T : tables) (space : Nat → Nat)
    (channel : rf5c400_channel) (N k : Nat) : ∀ (i : Nat) (v : voice) (x y : buffers),
    i + k ≤ N →
    run_samples T space channel k i v (concat_bufs N x y) =
      ((run_samples T space channel k i v x).1,
       concat_bufs N (run_samples T space channel k i v x).2 y) := by
  induction k with
  | zero => intro i v x y _; rfl
  | succ k ih =>
    intro i v x y hik
    rw [run_samples, run_samples]
    by_cases hp : v.env_phase = Phase.PHASE_NONE
    · simp [hp]
    · simp only [hp, if_false]
      have hi : i < N := by omega
      have e : (add_int (concat_bufs N x y).1 i (tick T space channel v).2.1,
          add_int (concat_bufs N x y).2 i (tick T space channel v).2.2) =
          concat_bufs N (add_int x.1 i (tick T space channel v).2.1,
            add_int x.2 i (tick T space channel v).2.2) y := by
        simp only [concat_bufs, add_int_concat_lt _ _ _ _ _ hi]
      rw [e]
      exact ih _ _ _ _ (by omega)

/-- Iterations from sample `N` on write only into the second part of a concatenated
buffer, at indices shifted by `N`. -/
theorem run_samples_concat_right (T : tables) (space : Nat → Nat)
    (channel : rf5c400_channel) (N k : Nat) : ∀ (i : Nat) (v : voice) (x y : buffers),
    run_samples T space channel k (N + i) v (concat_bufs N x y) =
      ((run_samples T space channel k i v y).1,
       concat_bufs N x (run_samples T space channel k i v y).2) := by
  induction k with
  | zero => intro i v x y; rfl
  | succ k ih =>
    intro i v x y
    rw [run_samples, run_samples]
    by_cases hp : v.env_phase = Phase.PHASE_NONE
    · simp [hp]
    · simp only [hp, if_false]
      have e : (add_int (concat_bufs N x y).1 (N + i) (tick T space channel v).2.1,
          add_int (concat_bufs N x y).2 (N + i) (tick T space channel v).2.2) =
          concat_bufs N x (add_int y.1 i (tick T space channel v).2.1,
            add_int y.2 i (tick T space channel v).2.2) := by
        simp only [concat_bufs, add_int_concat_ge]
      rw [e]
      have e2 : N + i + 1 = N + (i + 1) := by omega
      rw [e2]
      exact ih _ _ _ _

/-- Block splitting for one voice: a pass of `N + M` samples over a concatenated buffer
is a pass of `N` samples over its first part followed by a pass of `M` samples, from the
committed record, over its second part. -/
theorem update_channel_split (T : tables)
    (hdr : ∀ c v, T.dr (commit_locals c v) = T.dr c) (space : Nat → Nat)
    (channel : rf5c400_channel) (N M : Nat) (x y : buffers) :
    update_channel T space channel (N + M) (concat_bufs N x y) =
      ((update_channel T space (update_channel T space channel N x).1 M y).1,
       concat_bufs N (update_channel T space channel N x).2
         (update_channel T space (update_channel T space channel N x).1 M y).2) := by
  by_cases hse : chan_start channel = chan_end channel
  · simp [update_channel, hse]
  · have h1 : update_channel T space channel N x =
        (commit_locals channel (run_samples T space channel N 0 (load_locals channel) x).1,
         (run_samples T space channel N 0 (load_locals channel) x).2) := by
      simp [update_channel, hse]
    have hse2 : chan_start (commit_locals channel
        (run_samples T space channel N 0 (load_locals channel) x).1) ≠
        chan_end (commit_locals channel
          (run_samples T space channel N 0 (load_locals channel) x).1) := hse
    have hr := run_samples_rstep T space channel N 0 (load_locals channel) x rfl
    rw [h1]
    simp only [update_channel, hse, hse2, if_false]
    rw [run_samples_append, run_samples_concat_left T space channel N N 0 _ x y (by omega),
      Nat.zero_add]
    have hcr : ∀ (w : voice) (bx : buffers),
        run_samples T space channel M N w (concat_bufs N bx y) =
          ((run_samples T space channel M 0 w y).1,
           concat_bufs N bx (run_samples T space channel M 0 w y).2) :=
      fun w bx => run_samples_concat_right T space channel N M 0 w bx y
    simp only []
    rw [hcr, load_commit _ _ hr, run_samples_commit T space channel _ (hdr _ _)]
    rfl

/-- The output buffers of the voice loop: every voice adds to them from its own record
as it was before the block. -/
theorem foldl_update_step_bufs (T : tables) (n : Nat) (l : List (Fin 32)) (hl : l.Nodup) :
    ∀ (d : rf5c400_device) (b : buffers),
    (l.foldl (update_step T n) (d, b)).2 =
      l.foldl (fun b c => (update_channel T d.space (d.m_channels c) n b).2) b := by
  induction l with
  | nil => intro d b; rfl
  | cons a t ih =>
    intro d b
    have hnd := List.nodup_cons.mp hl
    rw [List.foldl_cons, List.foldl_cons]
    have h := ih hnd.2 (update_step T n (d, b) a).1 (update_step T n (d, b) a).2
    rw [show ((update_step T n (d, b) a).1, (update_step T n (d, b) a).2) =
      update_step T n (d, b) a from rfl] at h
    rw [h]
    apply List.foldl_ext
    intro b2 c hc
    have hca : c ≠ a := fun e => hnd.1 (e ▸ hc)
    simp [update_step, Function.update_noteq hca]

theorem sound_stream_update_bufs (T : tables) (d : rf5c400_device) (n : Nat) :
    (sound_stream_update T d n).2 =
      (List.finRange 32).foldl
        (fun b c => (update_channel T d.space (d.m_channels c) n b).2)
        (fun _ => 0, fun _ => 0) :=
  foldl_update_step_bufs T n (List.finRange 32) (List.nodup_finRange 32) d _

/-- Block splitting for the output of the voice loop. -/
theorem foldl_bufs_split (T : tables) (hdr : ∀ c v, T.dr (commit_locals c v) = T.dr c)
    (d d1 : rf5c400_device) (N M : Nat)
    (hch : ∀ c, d1.m_channels c = chan_after T d.space (d.m_channels c) N)
    (l : List (Fin 32)) : ∀ (x y : buffers),
    l.foldl (fun b c => (update_channel T d.space (d.m_channels c) (N + M) b).2)
        (concat_bufs N x y) =
      concat_bufs N
        (l.foldl (fun b c => (update_channel T d.space (d.m_channels c) N b).2) x)
        (l.foldl (fun b c => (update_channel T d.space (d1.m_channels c) M b).2) y) := by
  induction l with
  | nil => intro x y; rfl
  | cons a t ih =>
    intro x y
    simp only [List.foldl_cons]
    have e1 : d1.m_channels a = (update_channel T d.space (d.m_channels a) N x).1 := by
      rw [hch a]
      exact update_channel_indep T d.space (d.m_channels a) N _ x
    rw [update_channel_split T hdr d.space (d.m_channels a) N M x y, e1]
    exact ih _ _

theorem concat_bufs_zero (N : Nat) :
    concat_bufs N (fun _ => 0, fun _ => 0) (fun _ => 0, fun _ => 0) =
      ((fun _ => 0, fun _ => 0) : buffers) := by
  unfold concat_bufs concat_buf
  refine Prod.ext ?_ ?_ <;> (funext i; simp)

/-- Block splitting for one voice record. -/
theorem chan_after_split (T : tables) (hdr : ∀ c v, T.dr (commit_locals c v) = T.dr c)
    (space : Nat → Nat) (channel : rf5c400_channel) (N M : Nat) :
    chan_after T space (chan_after T space channel N) M =
      chan_after T space channel (N + M) := by
  have h := update_channel_split T hdr space channel N M (fun _ => 0, fun _ => 0)
    (fun _ => 0, fun _ => 0)
  rw [concat_bufs_zero] at h
  unfold chan_after
  rw [h]

theorem sound_stream_update_globals (T : tables) (d : rf5c400_device) (n : Nat) :
    (sound_stream_update T d n).1.m_rf5c400_status = d.m_rf5c400_status ∧
    (sound_stream_update T d n).1.m_ext_mem_address = d.m_ext_mem_address ∧
    (sound_stream_update T d n).1.m_ext_mem_data = d.m_ext_mem_data := by
  obtain ⟨-, hst, had, hda, -, -⟩ := foldl_update_step T n (List.finRange 32)
    (List.nodup_finRange 32) d (fun _ => 0, fun _ => 0)
  exact ⟨hst, had, hda⟩

/-- Block splitting for the whole device: state and both output buffers. -/
theorem sound_stream_update_split (T : tables)
    (hdr : ∀ c v, T.dr (commit_locals c v) = T.dr c) (d : rf5c400_device) (N M : Nat) :
    (sound_stream_update T (sound_stream_update T d N).1 M).1 =
      (sound_stream_update T d (N + M)).1 ∧
    (sound_stream_update T d (N + M)).2 =
      concat_bufs N (sound_stream_update T d N).2
        (sound_stream_update T (sound_stream_update T d N).1 M).2 := by
  refine ⟨?_, ?_⟩
  · have g1 := sound_stream_update_globals T d N
    have g2 := sound_stream_update_globals T (sound_stream_update T d N).1 M
    have g3 := sound_stream_update_globals T d (N + M)
    apply device_ext
    · funext c
      rw [sound_stream_update_channel, sound_stream_update_channel,
        sound_stream_update_channel, sound_stream_update_space,
        chan_after_split T hdr]
    · rw [g2.1, g1.1, g3.1]
    · rw [g2.2.1, g1.2.1, g3.2.1]
    · rw [g2.2.2, g1.2.2, g3.2.2]
    · rw [sound_stream_update_req_channel, sound_stream_update_req_channel,
        sound_stream_update_req_channel]
    · rw [sound_stream_update_space, sound_stream_update_space, sound_stream_update_space]
  · have h := foldl_bufs_split T hdr d (sound_stream_update T d N).1 N M
      (fun c => sound_stream_update_channel T d N c) (List.finRange 32)
      (fun _ => 0, fun _ => 0) (fun _ => 0, fun _ => 0)
    rw [concat_bufs_zero] at h
    rw [sound_stream_update_bufs, sound_stream_update_bufs, sound_stream_update_bufs,
      sound_stream_update_space]
    exact h

/-! ## Pan codes -/

theorem pan_device_channel :
    pan_device.m_channels 0 =
      { zero_channel with endL := 1, pan := 0xFFFF, env_phase := Phase.PHASE_ATTACK,
                          env_step := 1 } := by
  decide

theorem pan_device_reachable : Reachable demo_tables pan_device :=
  Reachable.write _ _ _ (Reachable.write _ _ _ (Reachable.write _ _ _
    (Reachable.write _ _ _ (Reachable.write _ _ _ (Reachable.start zero_device)))))

theorem trunc_intCast (z : Int) : trunc (z : ℚ) = z := by
  unfold trunc
  split_ifs <;> simp

/-- The first sample of voice 0 of `pan_device`: the folded sample is `0x4000`, the
envelope reaches level 1, and the value before panning is 8160. -/
theorem pan_device_sample (T : tables) (hv : T.volume_table 0 = 255) :
    (tick T pan_device.space (pan_device.m_channels 0)
      (load_locals (pan_device.m_channels 0))).2.1 = trunc (8160 * T.pan_table 0xFF) := by
  have hvol0 : (pan_device.m_channels 0).volume = 0 := by decide
  have hpos : (load_locals (pan_device.m_channels 0)).pos = 0 := by decide
  have hf : folded_sample pan_device.space (pan_device.m_channels 0)
      (load_locals (pan_device.m_channels 0)) = 16384 := by
    unfold folded_sample
    rw [hvol0, hpos]
    have h1 : read_word pan_device.space ((0 >>> 16) <<< 1) = 0x4000 := by decide
    have h2 : decode_sample ((0 >>> 8) &&& 0x00C0) 0x4000 = ((16384 : Nat) : Int) := by
      decide
    rw [h1, h2]
    exact fold_sample_nonneg 16384 (by decide)
  have he : (env_update T (pan_device.m_channels 0)
      (load_locals (pan_device.m_channels 0))).env_level = 1 := by
    rw [pan_device_channel]
    simp [env_update, load_locals, zero_channel]
  have hvol : T.volume_table ((pan_device.m_channels 0).volume &&& 0xFF) = 255 := by
    rw [hvol0]; exact hv
  have hpan : (pan_device.m_channels 0).pan &&& 0xFF = 0xFF := by
    rw [pan_device_channel]; decide
  rw [(tick_outputs T pan_device.space (pan_device.m_channels 0) _).1, hf, he, hvol, hpan]
  have hs : ((16384 : Int) * 255) >>> 9 = 8160 := by decide
  rw [hs, mul_one, trunc_intCast]
  norm_num

/-! ## An active voice with equal start and end -/

/-- C1 (envelope range): in every device state reachable from `device_start` by register
writes and synthesized blocks of any length, every voice has `env_scale = 1` and
`0 ≤ env_level ≤ 1`, provided the attack lookup is non-negative and the decay and release
lookups are non-positive. -/
theorem envelope_level_in_range (T : tables) (har : ∀ c, 0 ≤ T.ar c) (hdr : ∀ c, T.dr c ≤ 0)
    (hrr : ∀ c, T.rr c ≤ 0) (d : rf5c400_device) (hd : Reachable T d) (ch : Fin 32) :
    (d.m_channels ch).env_scale = 1 ∧
    0 ≤ (d.m_channels ch).env_level ∧ (d.m_channels ch).env_level ≤ 1 := by
  have h := reachable_env_ok T ⟨har, hdr, hrr⟩ d hd ch
  exact ⟨h.1, h.2.1, h.2.2.1⟩

/-- Instance of C1: voice 0 of the reachable state `decay_device`. -/
theorem envelope_level_in_range_witness :
    rates_signed demo_tables ∧ Reachable demo_tables decay_device ∧
    (decay_device.m_channels 0).env_scale = 1 ∧
    0 ≤ (decay_device.m_channels 0).env_level ∧ (decay_device.m_channels 0).env_level ≤ 1 :=
  ⟨demo_tables_signed, decay_device_reachable,
   envelope_level_in_range demo_tables demo_tables_signed.1 demo_tables_signed.2.1
     demo_tables_signed.2.2 decay_device decay_device_reachable 0⟩

/-- C2 (key-on): a write of a 16-bit `data` with `(data & 0x60) == 0x60` to offset `0x01`
leaves voice `data & 0x1f` with `pos = start << 16`, `env_phase = PHASE_ATTACK`,
`env_level = 0` and `env_step` equal to the attack lookup of that voice, whatever these
four fields held before. -/
theorem key_on_resets (T : tables) (d : rf5c400_device) (data : Nat) (hdata : data < 65536)
    (hcmd : data &&& 0x60 = 0x60) (hL : (d.m_channels (chan_index data)).startL < 65536) :
    ((rf5c400_w T d 0x01 data).m_channels (chan_index data)).pos =
      chan_start (d.m_channels (chan_index data)) <<< 16 ∧
    ((rf5c400_w T d 0x01 data).m_channels (chan_index data)).env_phase = Phase.PHASE_ATTACK ∧
    ((rf5c400_w T d 0x01 data).m_channels (chan_index data)).env_level = 0 ∧
    ((rf5c400_w T d 0x01 data).m_channels (chan_index data)).env_step =
      T.ar { d.m_channels (chan_index data) with
             pos := chan_start (d.m_channels (chan_index data)) <<< 16,
             env_phase := Phase.PHASE_ATTACK, env_level := 0 } := by
  have hlt := chan_start_lt _ hL
  have hpos : (chan_start (d.m_channels (chan_index data)) <<< 16) % 2 ^ 64 =
      chan_start (d.m_channels (chan_index data)) <<< 16 := by
    apply Nat.mod_eq_of_lt
    rw [Nat.shiftLeft_eq]
    calc chan_start (d.m_channels (chan_index data)) * 2 ^ 16 < 2 ^ 24 * 2 ^ 16 :=
          Nat.mul_lt_mul_of_pos_right hlt (by norm_num)
      _ ≤ 2 ^ 64 := by norm_num
  have hk : key_on T (d.m_channels (chan_index data)) =
      { d.m_channels (chan_index data) with
        pos := chan_start (d.m_channels (chan_index data)) <<< 16,
        env_phase := Phase.PHASE_ATTACK, env_level := 0,
        env_step := T.ar { d.m_channels (chan_index data) with
             pos := chan_start (d.m_channels (chan_index data)) <<< 16,
             env_phase := Phase.PHASE_ATTACK, env_level := 0 } } := by
    simp only [key_on]
    rw [show ((d.m_channels (chan_index data)).startH &&& 0xFF00) <<< 8 |||
      (d.m_channels (chan_index data)).startL = chan_start (d.m_channels (chan_index data))
      from rfl, hpos]
  rw [rf5c400_w_channels]
  simp only [Nat.mod_eq_of_lt hdata, show (1 : Nat) < 0x400 by norm_num, if_true,
    Function.update_same, channel_control, hcmd, hk]
  exact ⟨trivial, trivial, trivial, trivial⟩

/-- Instance of C2: key-on of voice 0 of `scenario_device`, which was in `PHASE_DECAY` at
position `0x2000 << 16`. -/
theorem key_on_resets_witness :
    (0x60 : Nat) < 65536 ∧ (0x60 : Nat) &&& 0x60 = 0x60 ∧
    (scenario_device.m_channels (chan_index 0x60)).pos = 0x2000 <<< 16 ∧
    (scenario_device.m_channels (chan_index 0x60)).env_phase = Phase.PHASE_DECAY ∧
    ((rf5c400_w demo_tables scenario_device 0x01 0x60).m_channels (chan_index 0x60)).pos =
      0x1000 <<< 16 ∧
    ((rf5c400_w demo_tables scenario_device 0x01 0x60).m_channels (chan_index 0x60)).env_phase
      = Phase.PHASE_ATTACK ∧
    ((rf5c400_w demo_tables scenario_device 0x01 0x60).m_channels (chan_index 0x60)).env_level
      = 0 := by
  have h := key_on_resets demo_tables scenario_device 0x60 (by decide) (by decide) (by decide)
  refine ⟨by decide, by decide, by decide, by decide, ?_, h.2.1, h.2.2.1⟩
  rw [h.1]
  decide

/-- C3 (key-off): a write of a 16-bit `data` with `(data & 0x60) == 0x40` to offset `0x01`
acts on voice `data & 0x1f`: when its phase is not `PHASE_NONE` the phase becomes
`PHASE_RELEASE` and `env_step` becomes 0 if the release register has bit `0x80` set and
the release lookup otherwise, with `pos` and `env_level` unchanged; when its phase is
`PHASE_NONE` the voice record is unchanged. A key-on immediately followed by a key-off
of the same voice leaves it in `PHASE_RELEASE` with `env_level = 0`. -/
theorem key_off_releases (T : tables) (d : rf5c400_device) (data : Nat)
    (hdata : data < 65536) (hcmd : data &&& 0x60 = 0x40) :
    ((d.m_channels (chan_index data)).env_phase ≠ Phase.PHASE_NONE →
      ((rf5c400_w T d 0x01 data).m_channels (chan_index data)).env_phase
        = Phase.PHASE_RELEASE ∧
      ((rf5c400_w T d 0x01 data).m_channels (chan_index data)).env_step =
        (if (d.m_channels (chan_index data)).release &&& 0x0080 ≠ 0 then 0
         else T.rr { d.m_channels (chan_index data) with env_phase := Phase.PHASE_RELEASE }) ∧
      ((rf5c400_w T d 0x01 data).m_channels (chan_index data)).pos =
        (d.m_channels (chan_index data)).pos ∧
      ((rf5c400_w T d 0x01 data).m_channels (chan_index data)).env_level =
        (d.m_channels (chan_index data)).env_level) ∧
    ((d.m_channels (chan_index data)).env_phase = Phase.PHASE_NONE →
      (rf5c400_w T d 0x01 data).m_channels (chan_index data) = d.m_channels (chan_index data)) ∧
    (∀ data_on, data_on < 65536 → data_on &&& 0x60 = 0x60 →
      chan_index data_on = chan_index data →
      ((rf5c400_w T (rf5c400_w T d 0x01 data_on) 0x01 data).m_channels
          (chan_index data)).env_phase = Phase.PHASE_RELEASE ∧
      ((rf5c400_w T (rf5c400_w T d 0x01 data_on) 0x01 data).m_channels
          (chan_index data)).env_level = 0) := by
  have hcc : ∀ c, channel_control T c data = key_off T c := by
    intro c
    simp [channel_control, hcmd]
  refine ⟨?_, ?_, ?_⟩
  · intro hp
    rw [rf5c400_w_control T d data hdata, hcc, key_off_eq]
    simp only [hp, if_false]
    exact ⟨trivial, trivial, trivial, trivial⟩
  · intro hp
    rw [rf5c400_w_control T d data hdata, hcc, key_off_eq]
    simp [hp]
  · intro data_on hon hcmd_on hidx
    rw [rf5c400_w_control T _ data hdata, hcc, ← hidx, rf5c400_w_control T d data_on hon,
      key_off_eq]
    simp [channel_control, hcmd_on, key_on]

/-- Instance of C3: key-off of voice 0 of `scenario_device`. -/
theorem key_off_releases_witness :
    (0x40 : Nat) < 65536 ∧ (0x40 : Nat) &&& 0x60 = 0x40 ∧
    (scenario_device.m_channels (chan_index 0x40)).env_phase ≠ Phase.PHASE_NONE ∧
    ((rf5c400_w demo_tables scenario_device 0x01 0x40).m_channels (chan_index 0x40)).env_phase
      = Phase.PHASE_RELEASE ∧
    ((rf5c400_w demo_tables scenario_device 0x01 0x40).m_channels (chan_index 0x40)).pos
      = 0x2000 <<< 16 ∧
    ((rf5c400_w demo_tables scenario_device 0x01 0x40).m_channels (chan_index 0x40)).env_level
      = 1 := by
  have h := (key_off_releases demo_tables scenario_device 0x40 (by decide) (by decide)).1
    (by decide)
  refine ⟨by decide, by decide, by decide, h.1, ?_, ?_⟩
  · rw [h.2.2.1]; decide
  · rw [h.2.2.2]; rfl

/-- C5 (counterexample): a key-off moves a voice from `PHASE_DECAY` to `PHASE_RELEASE`.
Voice 0 of the reachable state `decay_device` is in `PHASE_DECAY`, and the write of
`0x40` to offset `0x01` leaves it in `PHASE_RELEASE`; so `PHASE_RELEASE` is not entered
only from `PHASE_ATTACK`. -/
theorem release_entered_from_decay :
    Reachable demo_tables decay_device ∧
    (decay_device.m_channels 0).env_phase = Phase.PHASE_DECAY ∧
    ((rf5c400_w demo_tables decay_device 0x01 0x40).m_channels 0).env_phase
      = Phase.PHASE_RELEASE := by
  refine ⟨decay_device_reachable, by rw [decay_device_channel], ?_⟩
  have h := rf5c400_w_control demo_tables decay_device 0x40 (by decide)
  have hi : chan_index 0x40 = 0 := by decide
  rw [hi] at h
  have hc : (0x40 : Nat) &&& 0x60 = 0x40 := by decide
  rw [h, decay_device_channel]
  simp [channel_control, key_off_eq, hc]

/-- C5 (phase transitions, amended): a register write changes the phase of a voice only
when it is a channel-control write (offset `0x01`) addressed to that voice, and then the
change is any phase to `PHASE_ATTACK` (key-on), `PHASE_ATTACK` or `PHASE_DECAY` to
`PHASE_RELEASE` (key-off), or any phase to `PHASE_NONE` (mute); one synthesized sample
changes the phase only by `PHASE_ATTACK` to `PHASE_DECAY`, `PHASE_DECAY` to `PHASE_NONE`
or `PHASE_RELEASE` to `PHASE_NONE`. So `PHASE_DECAY` is entered only from `PHASE_ATTACK`,
and `PHASE_RELEASE` only by a key-off, from `PHASE_ATTACK` or `PHASE_DECAY`. -/
theorem phase_transitions (T : tables) (d : rf5c400_device) (ch : Fin 32) :
    (∀ offset data, data < 65536 →
      ((rf5c400_w T d offset data).m_channels ch).env_phase ≠ (d.m_channels ch).env_phase →
      offset = 0x01 ∧ chan_index data = ch ∧
      ((data &&& 0x60 = 0x60 ∧
          ((rf5c400_w T d offset data).m_channels ch).env_phase = Phase.PHASE_ATTACK) ∨
       (data &&& 0x60 = 0x40 ∧
          ((d.m_channels ch).env_phase = Phase.PHASE_ATTACK ∨
           (d.m_channels ch).env_phase = Phase.PHASE_DECAY) ∧
          ((rf5c400_w T d offset data).m_channels ch).env_phase = Phase.PHASE_RELEASE) ∨
       (data &&& 0x60 ≠ 0x60 ∧ data &&& 0x60 ≠ 0x40 ∧
          ((rf5c400_w T d offset data).m_channels ch).env_phase = Phase.PHASE_NONE))) ∧
    (∀ n,
      ((sound_stream_update T d (n + 1)).1.m_channels ch).env_phase ≠
        ((sound_stream_update T d n).1.m_channels ch).env_phase →
      (((sound_stream_update T d n).1.m_channels ch).env_phase = Phase.PHASE_ATTACK ∧
        ((sound_stream_update T d (n + 1)).1.m_channels ch).env_phase = Phase.PHASE_DECAY) ∨
      (((sound_stream_update T d n).1.m_channels ch).env_phase = Phase.PHASE_DECAY ∧
        ((sound_stream_update T d (n + 1)).1.m_channels ch).env_phase = Phase.PHASE_NONE) ∨
      (((sound_stream_update T d n).1.m_channels ch).env_phase = Phase.PHASE_RELEASE ∧
        ((sound_stream_update T d (n + 1)).1.m_channels ch).env_phase = Phase.PHASE_NONE)) := by
  refine ⟨?_, ?_⟩
  · intro offset data hdata
    rw [rf5c400_w_channels, Nat.mod_eq_of_lt hdata]
    by_cases hlt : offset < 0x400
    · by_cases h1 : offset = 0x01
      · subst h1
        by_cases hc : chan_index data = ch
        · subst hc
          simp only [show (1 : Nat) < 0x400 by norm_num, if_true, Function.update_same]
          intro hne
          refine ⟨trivial, trivial, ?_⟩
          rcases channel_control_phase T (d.m_channels (chan_index data)) data with
            h | h | h | h
          · exact Or.inl h
          · right; left
            refine ⟨h.1, ?_, h.2.2⟩
            cases hp : (d.m_channels (chan_index data)).env_phase with
            | PHASE_NONE => exact absurd hp h.2.1
            | PHASE_ATTACK => exact Or.inl rfl
            | PHASE_DECAY => exact Or.inr rfl
            | PHASE_RELEASE => exact absurd (h.2.2.trans hp.symm) hne
          · exact absurd (h.2.2.trans h.2.1.symm) hne
          · exact Or.inr (Or.inr h)
        · simp only [show (1 : Nat) < 0x400 by norm_num, if_true,
            Function.update_noteq (Ne.symm hc)]
          intro hne; exact absurd rfl hne
      · simp only [hlt, h1, if_true, if_false]
        intro hne; exact absurd rfl hne
    · simp only [hlt, if_false]
      by_cases hc : ch = chan_index (offset >>> 5)
      · subst hc
        simp only [Function.update_same, (write_channel_reg_env _ _ _).2.1]
        intro hne; exact absurd rfl hne
      · simp only [Function.update_noteq hc]
        intro hne; exact absurd rfl hne
  · intro n
    rw [sound_stream_update_channel, sound_stream_update_channel]
    intro hne
    rcases chan_after_phase_step T d.space (d.m_channels ch) n with h | h | h | h
    · exact absurd h hne
    · exact Or.inl h
    · exact Or.inr (Or.inl h)
    · exact Or.inr (Or.inr h)

/-- Instance of C5: the key-off of voice 0 of `scenario_device` changes its phase, from
`PHASE_DECAY` to `PHASE_RELEASE`. -/
theorem phase_transitions_witness :
    ((rf5c400_w demo_tables scenario_device 0x01 0x40).m_channels 0).env_phase ≠
      (scenario_device.m_channels 0).env_phase ∧
    (scenario_device.m_channels 0).env_phase = Phase.PHASE_DECAY ∧
    ((rf5c400_w demo_tables scenario_device 0x01 0x40).m_channels 0).env_phase
      = Phase.PHASE_RELEASE := by
  have hne : ((rf5c400_w demo_tables scenario_device 0x01 0x40).m_channels 0).env_phase ≠
      (scenario_device.m_channels 0).env_phase := by decide
  have h := (phase_transitions demo_tables scenario_device 0).1 0x01 0x40 (by decide) hne
  refine ⟨hne, by decide, ?_⟩
  rcases h.2.2 with h | h | h
  · exact absurd h.1 (by decide)
  · exact h.2.2
  · exact absurd rfl h.2.1

/-- C6 (`PHASE_NONE` is absorbing except for key-on): a voice in `PHASE_NONE` is still in
`PHASE_NONE` after a synthesized block of any length, and after any register write of a
16-bit `data` that is not a key-on addressed to it (offset `0x01`,
`(data & 0x60) == 0x60`, `(data & 0x1f)` equal to the voice number). -/
theorem none_absorbing (T : tables) (d : rf5c400_device) (ch : Fin 32)
    (h : (d.m_channels ch).env_phase = Phase.PHASE_NONE) :
    (∀ n, ((sound_stream_update T d n).1.m_channels ch).env_phase = Phase.PHASE_NONE) ∧
    (∀ offset data, data < 65536 →
      ¬ (offset = 0x01 ∧ data &&& 0x60 = 0x60 ∧ data &&& 0x1f = ch.val) →
      ((rf5c400_w T d offset data).m_channels ch).env_phase = Phase.PHASE_NONE) := by
  refine ⟨?_, ?_⟩
  · intro n
    rw [sound_stream_update_channel, chan_after_eq]
    split_ifs
    · exact h
    · rw [voice_after_none T d.space _ h n]
      exact h
  · intro offset data hdata hnot
    rw [rf5c400_w_channels, Nat.mod_eq_of_lt hdata]
    by_cases hlt : offset < 0x400
    · by_cases h1 : offset = 0x01
      · subst h1
        by_cases hc : chan_index data = ch
        · simp only [show (1 : Nat) < 0x400 by norm_num, if_true, hc, Function.update_same]
          rcases channel_control_phase T (d.m_channels ch) data with hk | hk | hk | hk
          · exact absurd ⟨rfl, hk.1, (chan_index_eq_iff data ch).mp hc⟩ hnot
          · exact absurd h hk.2.1
          · exact hk.2.2
          · exact hk.2.2
        · simp only [show (1 : Nat) < 0x400 by norm_num, if_true,
            Function.update_noteq (Ne.symm hc)]
          exact h
      · simp only [hlt, h1, if_true, if_false]
        exact h
    · simp only [hlt, if_false]
      by_cases hc : ch = chan_index (offset >>> 5)
      · subst hc
        simp only [Function.update_same, (write_channel_reg_env _ _ _).2.1]
        exact h
      · simp only [Function.update_noteq hc]
        exact h

/-- Instance of C6: voice 1 of `attack_device` stays in `PHASE_NONE` through a block of 7
samples, a key-on of voice 0 and a key-off addressed to it. -/
theorem none_absorbing_witness :
    (attack_device.m_channels 1).env_phase = Phase.PHASE_NONE ∧
    ((sound_stream_update demo_tables attack_device 7).1.m_channels 1).env_phase
      = Phase.PHASE_NONE ∧
    ((rf5c400_w demo_tables attack_device 0x01 0x60).m_channels 1).env_phase
      = Phase.PHASE_NONE ∧
    ((rf5c400_w demo_tables attack_device 0x01 0x41).m_channels 1).env_phase
      = Phase.PHASE_NONE :=
  have h := none_absorbing demo_tables attack_device 1 (by decide)
  ⟨by decide, h.1 7, h.2 0x01 0x60 (by decide) (by decide),
   h.2 0x01 0x41 (by decide) (by decide)⟩

/-- C7 (envelope monotonicity per sample): in a reachable device state, with a
non-negative attack lookup and non-positive decay and release lookups, one synthesized
sample does not decrease `env_level` of a voice that is in `PHASE_ATTACK` before the
sample and does not increase it when the voice is in `PHASE_DECAY` or `PHASE_RELEASE`
before the sample. This holds for a block of one sample and for sample `n + 1` of any
block against the state after its first `n` samples. -/
theorem envelope_monotone (T : tables) (har : ∀ c, 0 ≤ T.ar c) (hdr : ∀ c, T.dr c ≤ 0)
    (hrr : ∀ c, T.rr c ≤ 0) (d : rf5c400_device) (hd : Reachable T d) (ch : Fin 32) :
    ((d.m_channels ch).env_phase = Phase.PHASE_ATTACK →
      (d.m_channels ch).env_level ≤ ((sound_stream_update T d 1).1.m_channels ch).env_level) ∧
    ((d.m_channels ch).env_phase = Phase.PHASE_DECAY ∨
      (d.m_channels ch).env_phase = Phase.PHASE_RELEASE →
      ((sound_stream_update T d 1).1.m_channels ch).env_level ≤ (d.m_channels ch).env_level) ∧
    (∀ n,
      (((sound_stream_update T d n).1.m_channels ch).env_phase = Phase.PHASE_ATTACK →
        ((sound_stream_update T d n).1.m_channels ch).env_level ≤
          ((sound_stream_update T d (n + 1)).1.m_channels ch).env_level) ∧
      (((sound_stream_update T d n).1.m_channels ch).env_phase = Phase.PHASE_DECAY ∨
        ((sound_stream_update T d n).1.m_channels ch).env_phase = Phase.PHASE_RELEASE →
        ((sound_stream_update T d (n + 1)).1.m_channels ch).env_level ≤
          ((sound_stream_update T d n).1.m_channels ch).env_level)) := by
  have hT : rates_signed T := ⟨har, hdr, hrr⟩
  have hok := reachable_env_ok T hT d hd ch
  have hstep := chan_after_level_step T hT d.space (d.m_channels ch) hok
  have h0 := hstep 0
  rw [chan_after_zero] at h0
  refine ⟨?_, ?_, ?_⟩
  · rw [sound_stream_update_channel]; exact h0.1
  · rw [sound_stream_update_channel]; exact h0.2
  · intro n
    rw [sound_stream_update_channel, sound_stream_update_channel]
    exact hstep n

/-- Instance of C7: voice 0 of the reachable state `attack_device` is in `PHASE_ATTACK`. -/
theorem envelope_monotone_witness :
    rates_signed demo_tables ∧ Reachable demo_tables attack_device ∧
    (attack_device.m_channels 0).env_phase = Phase.PHASE_ATTACK ∧
    (attack_device.m_channels 0).env_level ≤
      ((sound_stream_update demo_tables attack_device 1).1.m_channels 0).env_level :=
  ⟨demo_tables_signed, attack_device_reachable, by decide,
   (envelope_monotone demo_tables demo_tables_signed.1 demo_tables_signed.2.1
     demo_tables_signed.2.2 attack_device attack_device_reachable 0).1 (by decide)⟩

/-- C8 (loop-wrap lower bound): for every position, step, end and loop value and every
24-bit start, when the advanced position `p = pos + step` (a `uint64_t`) has
`(p >> 16) > end`, the position stored after the sample is at least `start << 16`, has
its low 16 bits zero and is below `2 ^ 40`. -/
theorem loop_wrap_lower_bound (pos step start end_ loop : Nat) (hstart : start < 2 ^ 24)
    (hwrap : end_ < ((pos + step) % 2 ^ 64) >>> 16) :
    start <<< 16 ≤ advance_pos pos step start end_ loop ∧
    advance_pos pos step start end_ loop % 65536 = 0 ∧
    advance_pos pos step start end_ loop < 2 ^ 40 := by
  unfold advance_pos
  simp only [gt_iff_lt, hwrap, if_true, and_mask40]
  split_ifs with h
  · refine ⟨le_refl _, ?_, ?_⟩ <;> omega
  · refine ⟨?_, ?_, ?_⟩ <;> omega

/-- Instance of C8: the loop-rewind scenario `start = 0x1000`, `end = 0x2000`,
`loop = 0x0500`, `step = 0x10000`, `pos = 0x2000 << 16`. -/
theorem loop_wrap_lower_bound_witness :
    (0x1000 : Nat) < 2 ^ 24 ∧ 0x2000 < ((0x2000 <<< 16 + 0x10000) % 2 ^ 64) >>> 16 ∧
    0x1000 <<< 16 ≤ advance_pos (0x2000 <<< 16) 0x10000 0x1000 0x2000 0x0500 ∧
    advance_pos (0x2000 <<< 16) 0x10000 0x1000 0x2000 0x0500 % 65536 = 0 ∧
    advance_pos (0x2000 <<< 16) 0x10000 0x1000 0x2000 0x0500 < 2 ^ 40 :=
  ⟨by decide, by decide,
   loop_wrap_lower_bound (0x2000 <<< 16) 0x10000 0x1000 0x2000 0x0500 (by decide) (by decide)⟩

/-- C9 (failing input): voice 0 of the reachable state `underflow_device` has `start = 0`,
`end = 1`, `loop = 3`, `step = 0x10000`. Its second sample advances the position to
`p = 0x20000`, past `end`; `p - (loop << 16)` is negative, hence below `start << 16 = 0`,
but the stored position is `0xFFFFFF0000`, not `start << 16`: the unsigned subtraction
wraps, the 40-bit mask keeps the wrapped value, and the comparison with `start << 16`
does not fire. -/
theorem loop_underflow_not_clamped :
    Reachable demo_tables underflow_device ∧
    chan_start (underflow_device.m_channels 0) = 0 ∧
    chan_end (underflow_device.m_channels 0) = 1 ∧
    chan_loop (underflow_device.m_channels 0) = 3 ∧
    (underflow_device.m_channels 0).step = 0x10000 ∧
    ((sound_stream_update demo_tables underflow_device 1).1.m_channels 0).pos = 0x10000 ∧
    ((0x10000 + 0x10000 : Int) - (3 : Int) * 65536 < 0) ∧
    advance_pos 0x10000 0x10000 0 1 3 = 0xFFFFFF0000 ∧
    ((sound_stream_update demo_tables underflow_device 2).1.m_channels 0).pos
      = 0xFFFFFF0000 := by
  have h1 : advance_pos 0 0x10000 0 1 3 = 0x10000 := by decide
  have h2 : advance_pos 0x10000 0x10000 0 1 3 = 0xFFFFFF0000 := by decide
  refine ⟨underflow_device_reachable, by decide, by decide, by decide, by decide, ?_,
    by norm_num, h2, ?_⟩
  · rw [sound_stream_update_channel, chan_after_eq, underflow_device_channel]
    simp [chan_start, chan_end, chan_loop, zero_channel, voice_after, run_samples,
      load_locals, tick, env_update, commit_locals, demo_tables, h1]
  · rw [sound_stream_update_channel, chan_after_eq, underflow_device_channel]
    simp [chan_start, chan_end, chan_loop, zero_channel, voice_after, run_samples,
      load_locals, tick, env_update, commit_locals, demo_tables, h1, h2]

/-- C10 (counterexample): voice 0 of `top_device` is active (`PHASE_DECAY`,
`start = 0xFFFFFE`, `end = 0xFFFFFF`, `loop = 0`) with `pos = 0xFFFFFF << 16` and
`step = 0x10000`. The advanced position `p = 2 ^ 40` has `(p >> 16) > end`,
`loop << 16 <= p`, and `p - (loop << 16)` with its low 16 bits cleared is
`2 ^ 40 >= start << 16`; yet the position after the sample is `start << 16`, because the
mask `0xFFFFFF0000` also clears bit 40. -/
theorem loop_rewind_overflow :
    (top_device.m_channels 0).env_phase ≠ Phase.PHASE_NONE ∧
    chan_start (top_device.m_channels 0) ≠ chan_end (top_device.m_channels 0) ∧
    (top_device.m_channels 0).pos + (top_device.m_channels 0).step = 2 ^ 40 ∧
    chan_end (top_device.m_channels 0) < (2 ^ 40) >>> 16 ∧
    chan_loop (top_device.m_channels 0) <<< 16 ≤ 2 ^ 40 ∧
    chan_start (top_device.m_channels 0) <<< 16 ≤
      ((2 ^ 40 - chan_loop (top_device.m_channels 0) <<< 16) >>> 16) <<< 16 ∧
    ((sound_stream_update demo_tables top_device 1).1.m_channels 0).pos = 0xFFFFFE <<< 16 ∧
    ((sound_stream_update demo_tables top_device 1).1.m_channels 0).pos ≠
      ((2 ^ 40 - chan_loop (top_device.m_channels 0) <<< 16) >>> 16) <<< 16 := by
  have hpos : ((sound_stream_update demo_tables top_device 1).1.m_channels 0).pos
      = 0xFFFFFE <<< 16 := by
    rw [sound_stream_update_channel,
      chan_after_one_pos demo_tables _ (top_device.m_channels 0) (by decide) (by decide)]
    decide
  refine ⟨by decide, by decide, by decide, by decide, by decide, by decide, hpos, ?_⟩
  rw [hpos]
  decide

/-- C10 (loop rewind value, amended): for an active voice (`env_phase != PHASE_NONE`,
`start != end`) with advanced position `p = pos + step` (a `uint64_t`): when
`(p >> 16) > end`, `loop << 16 <= p`, `p - (loop << 16) < 2 ^ 40` and `p - (loop << 16)`
with its low 16 bits cleared is at least `start << 16`, the position after one sample is
`p - (loop << 16)` with its low 16 bits cleared; when `(p >> 16) <= end` the position
after one sample is `p`, fractional bits kept. -/
theorem loop_rewind_value (T : tables) (d : rf5c400_device) (ch : Fin 32)
    (hp : (d.m_channels ch).env_phase ≠ Phase.PHASE_NONE)
    (hse : chan_start (d.m_channels ch) ≠ chan_end (d.m_channels ch)) :
    (chan_end (d.m_channels ch) <
        (((d.m_channels ch).pos + (d.m_channels ch).step) % 2 ^ 64) >>> 16 →
      chan_loop (d.m_channels ch) <<< 16 ≤
        ((d.m_channels ch).pos + (d.m_channels ch).step) % 2 ^ 64 →
      ((d.m_channels ch).pos + (d.m_channels ch).step) % 2 ^ 64 -
        chan_loop (d.m_channels ch) <<< 16 < 2 ^ 40 →
      chan_start (d.m_channels ch) <<< 16 ≤
        ((((d.m_channels ch).pos + (d.m_channels ch).step) % 2 ^ 64 -
          chan_loop (d.m_channels ch) <<< 16) >>> 16) <<< 16 →
      ((sound_stream_update T d 1).1.m_channels ch).pos =
        ((((d.m_channels ch).pos + (d.m_channels ch).step) % 2 ^ 64 -
          chan_loop (d.m_channels ch) <<< 16) >>> 16) <<< 16) ∧
    ((((d.m_channels ch).pos + (d.m_channels ch).step) % 2 ^ 64) >>> 16 ≤
        chan_end (d.m_channels ch) →
      ((sound_stream_update T d 1).1.m_channels ch).pos =
        ((d.m_channels ch).pos + (d.m_channels ch).step) % 2 ^ 64) := by
  rw [sound_stream_update_channel, chan_after_one_pos T d.space (d.m_channels ch) hp hse]
  generalize (d.m_channels ch).pos = pos
  generalize (d.m_channels ch).step = step
  generalize chan_start (d.m_channels ch) = start
  generalize chan_end (d.m_channels ch) = end_
  generalize chan_loop (d.m_channels ch) = loop
  refine ⟨?_, ?_⟩
  · intro hwrap hle h40 hge
    unfold advance_pos
    simp only [gt_iff_lt, hwrap, if_true, and_mask40]
    have hL : (loop <<< 16) % 2 ^ 64 = loop <<< 16 := by
      apply Nat.mod_eq_of_lt
      have : (pos + step) % 2 ^ 64 < 2 ^ 64 := Nat.mod_lt _ (by norm_num)
      omega
    rw [hL]
    split_ifs with h
    · omega
    · omega
  · intro hle
    unfold advance_pos
    have : ¬ (((pos + step) % 2 ^ 64) >>> 16 > end_) := by omega
    simp only [this, if_false]

/-- Instance of C10: the scenario `start = 0x1000`, `end = 0x2000`, `loop = 0x0500`,
`step = 0x10000`, `pos = 0x2000 << 16`, `PHASE_DECAY`, level 1, step -1/100 gives
`pos = 0x1B01 << 16` after one sample. -/
theorem loop_rewind_value_witness :
    (scenario_device.m_channels 0).env_phase = Phase.PHASE_DECAY ∧
    chan_start (scenario_device.m_channels 0) = 0x1000 ∧
    chan_end (scenario_device.m_channels 0) = 0x2000 ∧
    chan_loop (scenario_device.m_channels 0) = 0x0500 ∧
    (scenario_device.m_channels 0).step = 0x10000 ∧
    (scenario_device.m_channels 0).pos = 0x2000 <<< 16 ∧
    ((sound_stream_update demo_tables scenario_device 1).1.m_channels 0).pos
      = 0x1B01 <<< 16 := by
  have h := (loop_rewind_value demo_tables scenario_device 0 (by decide) (by decide)).1
    (by decide) (by decide) (by decide) (by decide)
  refine ⟨by decide, by decide, by decide, by decide, by decide, by decide, ?_⟩
  rw [h]
  decide

/-- C11 (sign folding): for every decoded sample `s` (a signed 16-bit value), the folded
sample is `s` when `s >= 0` and `s XOR 0x7FFF` when `s < 0`; in the second case the sign
is kept and the low 15 bits are inverted, so the result is `-1 - (s + 32768)` and lies in
`[-32768, -1]`. -/
theorem sign_folding (s : Int) (hlo : -32768 ≤ s) (hhi : s ≤ 32767) :
    (0 ≤ s → fold_sample s = s) ∧
    (s < 0 → fold_sample s = Int.xor s 0x7FFF ∧ fold_sample s = -1 - (s + 32768) ∧
      -32768 ≤ fold_sample s ∧ fold_sample s ≤ -1) := by
  cases s with
  | ofNat n =>
    have hn : n < 32768 := by
      have : (n : Int) ≤ 32767 := hhi
      omega
    refine ⟨fun _ => fold_sample_nonneg n hn, fun h => ?_⟩
    exact absurd h (by simp)
  | negSucc m =>
    have e1 := Int.negSucc_eq m
    have hm : m < 32768 := by
      have : -32768 ≤ Int.negSucc m := hlo
      omega
    have e2 := Int.negSucc_eq (0x7FFF - m)
    refine ⟨fun h => absurd h (by simp), fun _ => ?_⟩
    obtain ⟨h1, h2⟩ := fold_sample_neg m hm
    refine ⟨h1, ?_, ?_, ?_⟩
    · rw [h2]; omega
    · rw [h2]; omega
    · rw [h2]; omega

/-- Instance of C11: `s = -32477` (the word `0x8123`). -/
theorem sign_folding_witness :
    (-32768 : Int) ≤ -32477 ∧ (-32477 : Int) ≤ 32767 ∧ (-32477 : Int) < 0 ∧
    fold_sample (-32477) = -1 - (-32477 + 32768) :=
  ⟨by decide, by decide, by decide,
   ((sign_folding (-32477) (by decide) (by decide)).2 (by decide)).2.1⟩

/-- C12 (counterexample): with the 16-bit sample type and the fetched word `0x8123` the
low 16 bits of the folded sample are not `0xFEAC`. -/
theorem fold_8123_not_feac :
    (scenario_channel.volume >>> 8) &&& 0x00C0 = 0x0000 ∧
    read_word (fun _ => 0x8123) (((load_locals scenario_channel).pos >>> 16) <<< 1) = 0x8123 ∧
    folded_sample (fun _ => 0x8123) scenario_channel (load_locals scenario_channel) % 65536
      ≠ 0xFEAC := by
  have h : folded_sample (fun _ => 0x8123) scenario_channel (load_locals scenario_channel)
      = -292 := fold_decode_8123
  rw [h]
  decide

/-- C12 (sign-folding scenario, amended): for a voice with the 16-bit sample type whose
fetched raw word is `0x8123`, the folded sample is `-292`; its low 16 bits, before the
volume scaling, are `0xFEDC`, which is `0x8123 XOR 0x7FFF`. -/
theorem fold_8123 (space : Nat → Nat) (channel : rf5c400_channel) (v : voice)
    (htype : (channel.volume >>> 8) &&& 0x00C0 = 0x0000)
    (hword : read_word space ((v.pos >>> 16) <<< 1) = 0x8123) :
    folded_sample space channel v = -292 ∧
    folded_sample space channel v % 65536 = 0xFEDC ∧
    (0xFEDC : Nat) = 0x8123 ^^^ 0x7FFF := by
  have h : folded_sample space channel v = -292 := by
    unfold folded_sample
    rw [htype, hword]
    exact fold_decode_8123
  rw [h]
  exact ⟨rfl, by decide, by decide⟩

/-- Instance of C12: `scenario_channel` (volume register 0, hence the 16-bit type) over a
storage that holds `0x8123` everywhere. -/
theorem fold_8123_witness :
    (scenario_channel.volume >>> 8) &&& 0x00C0 = 0x0000 ∧
    read_word (fun _ => 0x8123) (((load_locals scenario_channel).pos >>> 16) <<< 1) = 0x8123 ∧
    folded_sample (fun _ => 0x8123) scenario_channel (load_locals scenario_channel) % 65536
      = 0xFEDC :=
  ⟨by decide, by decide,
   (fold_8123 (fun _ => 0x8123) scenario_channel (load_locals scenario_channel)
     (by decide) (by decide)).2.1⟩

/-- C13 (counterexample): voice 0 of `far_device` is active with `start = 0` and
`pos >> 16 = 0x400000`, so `((pos >> 16) - start) >> 6` is `0x10000`; the poll (write of 0
to offset `0x08`, read of offset `0x09`, no pending samples) returns 0, the low 16 bits
of that value. -/
theorem poll_truncated :
    (polled_channel demo_tables far_device 0 0).env_phase ≠ Phase.PHASE_NONE ∧
    (((polled_channel demo_tables far_device 0 0).pos >>> 16) -
      chan_start (polled_channel demo_tables far_device 0 0)) >>> 6 = 0x10000 ∧
    (rf5c400_r demo_tables (rf5c400_w demo_tables far_device 0x08 0) 0x09 0).2 = 0 := by
  refine ⟨?_, ?_, ?_⟩
  · rw [polled_channel_far]; decide
  · rw [polled_channel_far]; decide
  · rw [poll_value demo_tables far_device 0 0 (by decide), polled_channel_far]
    decide

/-- C13 (position poll, amended): after a write of a 16-bit `data` to offset `0x08`, a
read of offset `0x09` leaves the device in the state after the pending synthesis and
returns, for voice `data & 0x1f` in that state: 0 when its phase is `PHASE_NONE`;
otherwise the low 16 bits of `((pos >> 16) - start) >> 6`, the subtraction taken modulo
`2 ^ 64`. When `start <= pos >> 16` and `((pos >> 16) - start) >> 6 < 2 ^ 16` this is
`((pos >> 16) - start) >> 6` itself. -/
theorem position_poll (T : tables) (d : rf5c400_device) (data pending : Nat)
    (hdata : data < 65536) :
    (rf5c400_r T (rf5c400_w T d 0x08 data) 0x09 pending).1 =
      (sound_stream_update T (rf5c400_w T d 0x08 data) pending).1 ∧
    ((polled_channel T d data pending).env_phase = Phase.PHASE_NONE →
      (rf5c400_r T (rf5c400_w T d 0x08 data) 0x09 pending).2 = 0) ∧
    ((polled_channel T d data pending).env_phase ≠ Phase.PHASE_NONE →
      (rf5c400_r T (rf5c400_w T d 0x08 data) 0x09 pending).2 =
        (((((polled_channel T d data pending).pos >>> 16) + 2 ^ 64
          - chan_start (polled_channel T d data pending) % 2 ^ 32) % 2 ^ 64) >>> 6)
          % 65536) ∧
    ((polled_channel T d data pending).env_phase ≠ Phase.PHASE_NONE →
      (polled_channel T d data pending).startL < 65536 →
      chan_start (polled_channel T d data pending) ≤
        (polled_channel T d data pending).pos >>> 16 →
      (((polled_channel T d data pending).pos >>> 16) -
        chan_start (polled_channel T d data pending)) >>> 6 < 65536 →
      (rf5c400_r T (rf5c400_w T d 0x08 data) 0x09 pending).2 =
        (((polled_channel T d data pending).pos >>> 16) -
          chan_start (polled_channel T d data pending)) >>> 6) := by
  refine ⟨(rf5c400_r_poll T _ pending).1, ?_, ?_, ?_⟩
  · intro hp
    rw [poll_value T d data pending hdata]
    simp [hp]
  · intro hp
    rw [poll_value T d data pending hdata]
    simp [hp]
  · intro hp hL hle hlt
    rw [poll_value T d data pending hdata]
    simp only [hp, if_false]
    have hs := chan_start_lt _ hL
    generalize chan_start (polled_channel T d data pending) = start at *
    generalize (polled_channel T d data pending).pos >>> 16 = p at *
    have h32 : start % 2 ^ 32 = start := Nat.mod_eq_of_lt (by omega)
    rw [h32]
    omega

/-- Instance of C13: voice 0 of `scenario_device` (`start = 0x1000`,
`pos >> 16 = 0x2000`) polls as `(0x2000 - 0x1000) >> 6 = 0x40`. -/
theorem position_poll_witness :
    (0 : Nat) < 65536 ∧
    (polled_channel demo_tables scenario_device 0 0).env_phase ≠ Phase.PHASE_NONE ∧
    (rf5c400_r demo_tables (rf5c400_w demo_tables scenario_device 0x08 0) 0x09 0).2 = 0x40 := by
  have hc : polled_channel demo_tables scenario_device 0 0 = scenario_channel := by
    unfold polled_channel
    rw [sound_stream_update_channel, chan_after_zero, (rf5c400_w_req _ _ _).2.1]
    rfl
  have h := (position_poll demo_tables scenario_device 0 0 (by decide)).2.2.2
  rw [hc] at h
  refine ⟨by decide, by rw [hc]; decide, ?_⟩
  rw [h (by decide) (by decide) (by decide) (by decide)]
  decide

/-- C14 (frequency-to-step conversion): a write of a 16-bit `data` to a per-voice
frequency register (`offset >= 0x400`, `(offset & 0x1f) == 0x02`) sets the step of voice
`(offset >> 5) & 0x1f` to `(data & 0x1fff) * 2 ^ (data >> 13) * 4`, a value below
`2 ^ 22`, and sets `freq` to `data`. -/
theorem freq_to_step (T : tables) (d : rf5c400_device) (offset data : Nat)
    (hoff : 0x400 ≤ offset) (hreg : offset &&& 0x1f = 0x02) (hdata : data < 65536) :
    ((rf5c400_w T d offset data).m_channels (chan_index (offset >>> 5))).step =
      (data &&& 0x1fff) * 2 ^ (data >>> 13) * 4 ∧
    ((rf5c400_w T d offset data).m_channels (chan_index (offset >>> 5))).step < 2 ^ 22 ∧
    ((rf5c400_w T d offset data).m_channels (chan_index (offset >>> 5))).freq = data := by
  have hstep : ((rf5c400_w T d offset data).m_channels (chan_index (offset >>> 5))).step =
      (data &&& 0x1fff) * 2 ^ (data >>> 13) * 4 := by
    rw [(rf5c400_w_window T d offset data hoff).1]
    simp [write_channel_reg, hreg, Nat.mod_eq_of_lt hdata, Nat.shiftLeft_eq]
  refine ⟨hstep, ?_, ?_⟩
  · rw [hstep]
    have h1 : data &&& 0x1fff ≤ 0x1fff := Nat.and_le_right
    have h2 : data >>> 13 ≤ 7 := by omega
    have h3 : 2 ^ (data >>> 13) ≤ 2 ^ 7 := Nat.pow_le_pow_right (by norm_num) h2
    have h4 : (data &&& 0x1fff) * 2 ^ (data >>> 13) ≤ 0x1fff * 2 ^ 7 := Nat.mul_le_mul h1 h3
    omega
  · rw [(rf5c400_w_window T d offset data hoff).1]
    simp [write_channel_reg, hreg, Nat.mod_eq_of_lt hdata]

/-- Instance of C14: `0x5000` written to the frequency register of voice 0 (offset
`0x402`) gives the step `0x10000`. -/
theorem freq_to_step_witness :
    (0x400 : Nat) ≤ 0x402 ∧ (0x402 : Nat) &&& 0x1f = 0x02 ∧ (0x5000 : Nat) < 65536 ∧
    ((rf5c400_w demo_tables zero_device 0x402 0x5000).m_channels (chan_index (0x402 >>> 5))).step
      = 0x10000 := by
  have h := (freq_to_step demo_tables zero_device 0x402 0x5000 (by decide) (by decide)
    (by decide)).1
  refine ⟨by decide, by decide, by decide, ?_⟩
  rw [h]
  decide

/-- C15 (per-voice register routing): a write of a 16-bit `data` to `offset >= 0x400`
changes no voice other than voice `(offset >> 5) & 0x1f`, changes no global register and
not the sample storage, and leaves `pos`, `env_phase`, `env_level`, `env_step` of the
addressed voice alone. With `reg = offset & 0x1f` the addressed voice becomes its old
record with `data` stored in the one field selected by `reg` (`0x00` startH, `0x01`
startL, `0x03` endL, `0x04` endHloopH, `0x05` loopL, `0x06` pan, `0x07` effect, `0x08`
volume, `0x09` attack, `0x0C` decay, `0x0E` release, `0x10` cutoff); for every other
`reg` except `0x02` the device is unchanged. -/
theorem channel_register_routing (T : tables) (d : rf5c400_device) (offset data : Nat)
    (hoff : 0x400 ≤ offset) (hdata : data < 65536) :
    (∀ c, c ≠ chan_index (offset >>> 5) → (rf5c400_w T d offset data).m_channels c = d.m_channels c) ∧
    (rf5c400_w T d offset data).m_rf5c400_status = d.m_rf5c400_status ∧
    (rf5c400_w T d offset data).m_ext_mem_address = d.m_ext_mem_address ∧
    (rf5c400_w T d offset data).m_ext_mem_data = d.m_ext_mem_data ∧
    (rf5c400_w T d offset data).m_req_channel = d.m_req_channel ∧
    (rf5c400_w T d offset data).space = d.space ∧
    ((rf5c400_w T d offset data).m_channels (chan_index (offset >>> 5))).pos =
      (d.m_channels (chan_index (offset >>> 5))).pos ∧
    ((rf5c400_w T d offset data).m_channels (chan_index (offset >>> 5))).env_phase =
      (d.m_channels (chan_index (offset >>> 5))).env_phase ∧
    ((rf5c400_w T d offset data).m_channels (chan_index (offset >>> 5))).env_level =
      (d.m_channels (chan_index (offset >>> 5))).env_level ∧
    ((rf5c400_w T d offset data).m_channels (chan_index (offset >>> 5))).env_step =
      (d.m_channels (chan_index (offset >>> 5))).env_step ∧
    (offset &&& 0x1f = 0x00 →
      (rf5c400_w T d offset data).m_channels (chan_index (offset >>> 5)) =
        { d.m_channels (chan_index (offset >>> 5)) with startH := data }) ∧
    (offset &&& 0x1f = 0x01 →
      (rf5c400_w T d offset data).m_channels (chan_index (offset >>> 5)) =
        { d.m_channels (chan_index (offset >>> 5)) with startL := data }) ∧
    (offset &&& 0x1f = 0x03 →
      (rf5c400_w T d offset data).m_channels (chan_index (offset >>> 5)) =
        { d.m_channels (chan_index (offset >>> 5)) with endL := data }) ∧
    (offset &&& 0x1f = 0x04 →
      (rf5c400_w T d offset data).m_channels (chan_index (offset >>> 5)) =
        { d.m_channels (chan_index (offset >>> 5)) with endHloopH := data }) ∧
    (offset &&& 0x1f = 0x05 →
      (rf5c400_w T d offset data).m_channels (chan_index (offset >>> 5)) =
        { d.m_channels (chan_index (offset >>> 5)) with loopL := data }) ∧
    (offset &&& 0x1f = 0x06 →
      (rf5c400_w T d offset data).m_channels (chan_index (offset >>> 5)) =
        { d.m_channels (chan_index (offset >>> 5)) with pan := data }) ∧
    (offset &&& 0x1f = 0x07 →
      (rf5c400_w T d offset data).m_channels (chan_index (offset >>> 5)) =
        { d.m_channels (chan_index (offset >>> 5)) with effect := data }) ∧
    (offset &&& 0x1f = 0x08 →
      (rf5c400_w T d offset data).m_channels (chan_index (offset >>> 5)) =
        { d.m_channels (chan_index (offset >>> 5)) with volume := data }) ∧
    (offset &&& 0x1f = 0x09 →
      (rf5c400_w T d offset data).m_channels (chan_index (offset >>> 5)) =
        { d.m_channels (chan_index (offset >>> 5)) with attack := data }) ∧
    (offset &&& 0x1f = 0x0C →
      (rf5c400_w T d offset data).m_channels (chan_index (offset >>> 5)) =
        { d.m_channels (chan_index (offset >>> 5)) with decay := data }) ∧
    (offset &&& 0x1f = 0x0E →
      (rf5c400_w T d offset data).m_channels (chan_index (offset >>> 5)) =
        { d.m_channels (chan_index (offset >>> 5)) with release := data }) ∧
    (offset &&& 0x1f = 0x10 →
      (rf5c400_w T d offset data).m_channels (chan_index (offset >>> 5)) =
        { d.m_channels (chan_index (offset >>> 5)) with cutoff := data }) ∧
    (offset &&& 0x1f ≠ 0x00 →
      offset &&& 0x1f ≠ 0x01 →
      offset &&& 0x1f ≠ 0x02 →
      offset &&& 0x1f ≠ 0x03 →
      offset &&& 0x1f ≠ 0x04 →
      offset &&& 0x1f ≠ 0x05 →
      offset &&& 0x1f ≠ 0x06 →
      offset &&& 0x1f ≠ 0x07 →
      offset &&& 0x1f ≠ 0x08 →
      offset &&& 0x1f ≠ 0x09 →
      offset &&& 0x1f ≠ 0x0C →
      offset &&& 0x1f ≠ 0x0E →
      offset &&& 0x1f ≠ 0x10 →
      rf5c400_w T d offset data = d) := by
  obtain ⟨hch, hst, had, hda, hrq, hsp⟩ := rf5c400_w_window T d offset data hoff
  have hsame : (rf5c400_w T d offset data).m_channels (chan_index (offset >>> 5)) =
      write_channel_reg (d.m_channels (chan_index (offset >>> 5))) (offset &&& 0x1f) data := by
    rw [hch, Function.update_same, Nat.mod_eq_of_lt hdata]
  obtain ⟨e1, e2, e3, e4, -⟩ := write_channel_reg_env
    (d.m_channels (chan_index (offset >>> 5))) (offset &&& 0x1f) data
  obtain ⟨r0, r1, r3, r4, r5, r6, r7, r8, r9, rC, rE, r10, rother⟩ := write_channel_reg_cases
    (d.m_channels (chan_index (offset >>> 5))) (offset &&& 0x1f) data
  refine ⟨?_, hst, had, hda, hrq, hsp, ?_, ?_, ?_, ?_, ?_, ?_, ?_, ?_, ?_, ?_, ?_, ?_, ?_,
    ?_, ?_, ?_, ?_⟩
  · intro c hc
    rw [hch, Function.update_noteq hc]
  · rw [hsame]; exact e1
  · rw [hsame]; exact e2
  · rw [hsame]; exact e3
  · rw [hsame]; exact e4
  · intro h; rw [hsame]; exact r0 h
  · intro h; rw [hsame]; exact r1 h
  · intro h; rw [hsame]; exact r3 h
  · intro h; rw [hsame]; exact r4 h
  · intro h; rw [hsame]; exact r5 h
  · intro h; rw [hsame]; exact r6 h
  · intro h; rw [hsame]; exact r7 h
  · intro h; rw [hsame]; exact r8 h
  · intro h; rw [hsame]; exact r9 h
  · intro h; rw [hsame]; exact rC h
  · intro h; rw [hsame]; exact rE h
  · intro h; rw [hsame]; exact r10 h
  · intro h0 h1 h2 h3 h4 h5 h6 h7 h8 h9 hC hE h10
    apply device_ext _ _ _ hst had hda hrq hsp
    rw [hch, Nat.mod_eq_of_lt hdata, rother h0 h1 h2 h3 h4 h5 h6 h7 h8 h9 hC hE h10,
      Function.update_eq_self]

/-- Instance of C15: `0x1234` written to the pan register of voice 3 (offset `0x466`)
of `scenario_device`. -/
theorem channel_register_routing_witness :
    (0x400 : Nat) ≤ 0x466 ∧ (0x1234 : Nat) < 65536 ∧ (0x466 : Nat) &&& 0x1f = 0x06 ∧
    chan_index (0x466 >>> 5) = 3 ∧
    (rf5c400_w demo_tables scenario_device 0x466 0x1234).m_channels (chan_index (0x466 >>> 5)) =
      { scenario_device.m_channels (chan_index (0x466 >>> 5)) with pan := 0x1234 } ∧
    (rf5c400_w demo_tables scenario_device 0x46A 0x1234) = scenario_device := by
  have h := channel_register_routing demo_tables scenario_device 0x466 0x1234 (by decide)
    (by decide)
  have h2 := channel_register_routing demo_tables scenario_device 0x46A 0x1234 (by decide)
    (by decide)
  refine ⟨by decide, by decide, by decide, by decide, ?_, ?_⟩
  · exact h.2.2.2.2.2.2.2.2.2.2.2.2.2.2.2.1 (by decide)
  · exact h2.2.2.2.2.2.2.2.2.2.2.2.2.2.2.2.2.2.2.2.2.2.2 (by decide) (by decide) (by decide)
      (by decide) (by decide) (by decide) (by decide) (by decide) (by decide) (by decide)
      (by decide) (by decide) (by decide)

/-- C16 (synthesis frame): for every device state and block length,
`sound_stream_update` leaves the register fields of every voice (startH, startL, freq,
step, endL, endHloopH, loopL, pan, effect, volume, attack, decay, release, cutoff,
env_scale, and keyon) and the global registers (status, external-memory address and
data, requested channel) and the sample storage unchanged; the only fields of a voice it
can change are `pos`, `env_phase`, `env_level` and `env_step`. -/
theorem synthesis_frame (T : tables) (d : rf5c400_device) (n : Nat) (ch : Fin 32) :
    ((sound_stream_update T d n).1.m_channels ch).startH = (d.m_channels ch).startH ∧
    ((sound_stream_update T d n).1.m_channels ch).startL = (d.m_channels ch).startL ∧
    ((sound_stream_update T d n).1.m_channels ch).freq = (d.m_channels ch).freq ∧
    ((sound_stream_update T d n).1.m_channels ch).step = (d.m_channels ch).step ∧
    ((sound_stream_update T d n).1.m_channels ch).endL = (d.m_channels ch).endL ∧
    ((sound_stream_update T d n).1.m_channels ch).endHloopH = (d.m_channels ch).endHloopH ∧
    ((sound_stream_update T d n).1.m_channels ch).loopL = (d.m_channels ch).loopL ∧
    ((sound_stream_update T d n).1.m_channels ch).pan = (d.m_channels ch).pan ∧
    ((sound_stream_update T d n).1.m_channels ch).effect = (d.m_channels ch).effect ∧
    ((sound_stream_update T d n).1.m_channels ch).volume = (d.m_channels ch).volume ∧
    ((sound_stream_update T d n).1.m_channels ch).attack = (d.m_channels ch).attack ∧
    ((sound_stream_update T d n).1.m_channels ch).decay = (d.m_channels ch).decay ∧
    ((sound_stream_update T d n).1.m_channels ch).release = (d.m_channels ch).release ∧
    ((sound_stream_update T d n).1.m_channels ch).cutoff = (d.m_channels ch).cutoff ∧
    ((sound_stream_update T d n).1.m_channels ch).env_scale = (d.m_channels ch).env_scale ∧
    ((sound_stream_update T d n).1.m_channels ch).keyon = (d.m_channels ch).keyon ∧
    (sound_stream_update T d n).1.m_rf5c400_status = d.m_rf5c400_status ∧
    (sound_stream_update T d n).1.m_ext_mem_address = d.m_ext_mem_address ∧
    (sound_stream_update T d n).1.m_ext_mem_data = d.m_ext_mem_data ∧
    (sound_stream_update T d n).1.m_req_channel = d.m_req_channel ∧
    (sound_stream_update T d n).1.space = d.space ∧
    (sound_stream_update T d n).1.m_channels ch =
      { d.m_channels ch with
        pos := ((sound_stream_update T d n).1.m_channels ch).pos,
        env_phase := ((sound_stream_update T d n).1.m_channels ch).env_phase,
        env_level := ((sound_stream_update T d n).1.m_channels ch).env_level,
        env_step := ((sound_stream_update T d n).1.m_channels ch).env_step } := by
  obtain ⟨hsp, hst, had, hda, hrq, -⟩ := foldl_update_step T n (List.finRange 32)
    (List.nodup_finRange 32) d (fun _ => 0, fun _ => 0)
  obtain ⟨v, hv⟩ := chan_after_commit T d.space (d.m_channels ch) n
  rw [sound_stream_update_channel, hv]
  exact ⟨rfl, rfl, rfl, rfl, rfl, rfl, rfl, rfl, rfl, rfl, rfl, rfl, rfl, rfl, rfl, rfl,
    hst, had, hda, hrq, hsp, rfl⟩

/-- C17 (rate-table shape): for every 32-bit `clock` with `n = clock / 384 >= 1`
(integer division), `envelope_tables::init` produces, in exact arithmetic:
`ar[i] = 1` for `i < 0x02`, `ar[i] = (1 / (0.1 * n)) * (0x80 - i) / (0x80 - 0x02)` for
`0x02 <= i < 0x80`, `ar[i] = 0` for `0x80 <= i < 0x9f`; `dr[i] = r` for `i < 0x20`,
`r * (0x73 - i) / (0x73 - 0x20)` for `0x20 <= i < 0x73`, 0 for `0x73 <= i < 0x9f`, with
`r = -5 / (2.0 * n)`; `rr` likewise with `r = -5 / (0.7 * n)`, bounds `0x20` and `0x54`.
Every `ar` entry is non-negative, every `dr` and `rr` entry non-positive. -/
theorem rate_table_shape (t : envelope_tables) (clock : Nat) (hclk : clock < 2 ^ 32)
    (hn : 1 ≤ clock / 384) :
    (∀ i, i < 0x02 → (t.init clock).m_ar i = 1) ∧
    (∀ i, 0x02 ≤ i → i < 0x80 → (t.init clock).m_ar i =
      1 / ((1 / 10 : ℚ) * ((clock / 384 : Nat) : ℚ)) * ((0x80 : ℚ) - (i : ℚ))
        / ((0x80 : ℚ) - 0x02)) ∧
    (∀ i, 0x80 ≤ i → i < 0x9f → (t.init clock).m_ar i = 0) ∧
    (∀ i, i < 0x20 → (t.init clock).m_dr i = -5 / ((2 : ℚ) * ((clock / 384 : Nat) : ℚ))) ∧
    (∀ i, 0x20 ≤ i → i < 0x73 → (t.init clock).m_dr i =
      -5 / ((2 : ℚ) * ((clock / 384 : Nat) : ℚ)) * ((0x73 : ℚ) - (i : ℚ))
        / ((0x73 : ℚ) - 0x20)) ∧
    (∀ i, 0x73 ≤ i → i < 0x9f → (t.init clock).m_dr i = 0) ∧
    (∀ i, i < 0x20 → (t.init clock).m_rr i = -5 / ((7 / 10 : ℚ) * ((clock / 384 : Nat) : ℚ))) ∧
    (∀ i, 0x20 ≤ i → i < 0x54 → (t.init clock).m_rr i =
      -5 / ((7 / 10 : ℚ) * ((clock / 384 : Nat) : ℚ)) * ((0x54 : ℚ) - (i : ℚ))
        / ((0x54 : ℚ) - 0x20)) ∧
    (∀ i, 0x54 ≤ i → i < 0x9f → (t.init clock).m_rr i = 0) ∧
    (∀ i, i < 0x9f → 0 ≤ (t.init clock).m_ar i) ∧
    (∀ i, i < 0x9f → (t.init clock).m_dr i ≤ 0) ∧
    (∀ i, i < 0x9f → (t.init clock).m_rr i ≤ 0) := by
  have hmod : clock % 4294967296 = clock := Nat.mod_eq_of_lt (by norm_num at hclk; exact hclk)
  have hnq : (1 : ℚ) ≤ ((clock / 384 : Nat) : ℚ) := by exact_mod_cast hn
  have a1 : ∀ i, i < 0x02 → (t.init clock).m_ar i = 1 := by
    intro i hi
    have h1 : ¬ (128 ≤ i ∧ i < 159) := by omega
    have h2 : ¬ (2 ≤ i ∧ i < 128) := by omega
    simp [envelope_tables.init, fill_loop_apply, h1, h2, hi]
  have a2 : ∀ i, 0x02 ≤ i → i < 0x80 → (t.init clock).m_ar i =
      1 / ((1 / 10 : ℚ) * ((clock / 384 : Nat) : ℚ)) * ((0x80 : ℚ) - (i : ℚ))
        / ((0x80 : ℚ) - 0x02) := by
    intro i hlo hhi
    have h1 : ¬ (128 ≤ i ∧ i < 159) := by omega
    simp [envelope_tables.init, fill_loop_apply, h1, hlo, hhi, hmod]
    norm_num
  have a3 : ∀ i, 0x80 ≤ i → i < 0x9f → (t.init clock).m_ar i = 0 := by
    intro i hlo hhi
    simp [envelope_tables.init, fill_loop_apply, hlo, hhi]
  have d1 : ∀ i, i < 0x20 →
      (t.init clock).m_dr i = -5 / ((2 : ℚ) * ((clock / 384 : Nat) : ℚ)) := by
    intro i hi
    have h1 : ¬ (115 ≤ i ∧ i < 159) := by omega
    have h2 : ¬ (32 ≤ i ∧ i < 115) := by omega
    simp [envelope_tables.init, fill_loop_apply, h1, h2, hi, hmod]
  have d2 : ∀ i, 0x20 ≤ i → i < 0x73 → (t.init clock).m_dr i =
      -5 / ((2 : ℚ) * ((clock / 384 : Nat) : ℚ)) * ((0x73 : ℚ) - (i : ℚ))
        / ((0x73 : ℚ) - 0x20) := by
    intro i hlo hhi
    have h1 : ¬ (115 ≤ i ∧ i < 159) := by omega
    simp [envelope_tables.init, fill_loop_apply, h1, hlo, hhi, hmod]
    norm_num
  have d3 : ∀ i, 0x73 ≤ i → i < 0x9f → (t.init clock).m_dr i = 0 := by
    intro i hlo hhi
    simp [envelope_tables.init, fill_loop_apply, hlo, hhi]
  have r1 : ∀ i, i < 0x20 →
      (t.init clock).m_rr i = -5 / ((7 / 10 : ℚ) * ((clock / 384 : Nat) : ℚ)) := by
    intro i hi
    have h1 : ¬ (84 ≤ i ∧ i < 159) := by omega
    have h2 : ¬ (32 ≤ i ∧ i < 84) := by omega
    simp [envelope_tables.init, fill_loop_apply, h1, h2, hi, hmod]
  have r2 : ∀ i, 0x20 ≤ i → i < 0x54 → (t.init clock).m_rr i =
      -5 / ((7 / 10 : ℚ) * ((clock / 384 : Nat) : ℚ)) * ((0x54 : ℚ) - (i : ℚ))
        / ((0x54 : ℚ) - 0x20) := by
    intro i hlo hhi
    have h1 : ¬ (84 ≤ i ∧ i < 159) := by omega
    simp [envelope_tables.init, fill_loop_apply, h1, hlo, hhi, hmod]
    norm_num
  have r3 : ∀ i, 0x54 ≤ i → i < 0x9f → (t.init clock).m_rr i = 0 := by
    intro i hlo hhi
    simp [envelope_tables.init, fill_loop_apply, hlo, hhi]
  refine ⟨a1, a2, a3, d1, d2, d3, r1, r2, r3, ?_, ?_, ?_⟩
  · intro i hi
    by_cases h2 : i < 0x02
    · rw [a1 i h2]; norm_num
    · by_cases h80 : i < 0x80
      · rw [a2 i (by omega) h80]
        have hi' : (0 : ℚ) ≤ (0x80 : ℚ) - (i : ℚ) := by
          have : (i : ℚ) ≤ 0x80 := by exact_mod_cast h80.le
          linarith
        have hr : (0 : ℚ) ≤ 1 / ((1 / 10 : ℚ) * ((clock / 384 : Nat) : ℚ)) := by positivity
        exact div_nonneg (mul_nonneg hr hi') (by norm_num)
      · rw [a3 i (by omega) hi]
  · intro i hi
    have hr : -5 / ((2 : ℚ) * ((clock / 384 : Nat) : ℚ)) ≤ 0 :=
      div_nonpos_of_nonpos_of_nonneg (by norm_num) (by positivity)
    by_cases h2 : i < 0x20
    · rw [d1 i h2]; exact hr
    · by_cases h73 : i < 0x73
      · rw [d2 i (by omega) h73]
        have hi' : (0 : ℚ) ≤ (0x73 : ℚ) - (i : ℚ) := by
          have : (i : ℚ) ≤ 0x73 := by exact_mod_cast h73.le
          linarith
        exact div_nonpos_of_nonpos_of_nonneg (mul_nonpos_of_nonpos_of_nonneg hr hi')
          (by norm_num)
      · rw [d3 i (by omega) hi]
  · intro i hi
    have hr : -5 / ((7 / 10 : ℚ) * ((clock / 384 : Nat) : ℚ)) ≤ 0 :=
      div_nonpos_of_nonpos_of_nonneg (by norm_num) (by positivity)
    by_cases h2 : i < 0x20
    · rw [r1 i h2]; exact hr
    · by_cases h54 : i < 0x54
      · rw [r2 i (by omega) h54]
        have hi' : (0 : ℚ) ≤ (0x54 : ℚ) - (i : ℚ) := by
          have : (i : ℚ) ≤ 0x54 := by exact_mod_cast h54.le
          linarith
        exact div_nonpos_of_nonpos_of_nonneg (mul_nonpos_of_nonpos_of_nonneg hr hi')
          (by norm_num)
      · rw [r3 i (by omega) hi]

/-- Instance of C17: the tables built for `clock = 16934400` (`n = 44100`). -/
theorem rate_table_shape_witness :
    (16934400 : Nat) < 2 ^ 32 ∧ 1 ≤ 16934400 / 384 ∧
    (envelope_tables.init envelope_tables.create 16934400).m_ar 1 = 1 ∧
    (envelope_tables.init envelope_tables.create 16934400).m_ar 0x90 = 0 ∧
    (envelope_tables.init envelope_tables.create 16934400).m_dr 0x10 =
      -5 / ((2 : ℚ) * ((16934400 / 384 : Nat) : ℚ)) ∧
    (∀ i, i < 0x9f → (envelope_tables.init envelope_tables.create 16934400).m_rr i ≤ 0) :=
  have h := rate_table_shape envelope_tables.create 16934400 (by norm_num) (by norm_num)
  ⟨by norm_num, by norm_num, h.1 1 (by norm_num), h.2.2.1 0x90 (by norm_num) (by norm_num),
   h.2.2.2.1 0x10 (by norm_num), h.2.2.2.2.2.2.2.2.2.2.2⟩

/-- C18 (pan table shape): with the C library square root taken as a given function
`sqrt` that has `sqrt 0 = 0` and is strictly increasing on the integers `0 .. 0x47`,
after `init_static_tables` `pan_table[i] = sqrt(0x47 - i) / sqrt(0x47)` for every `i` in
`0 .. 0x47`, so `pan_table[0] = 1` and `pan_table[i] > pan_table[j]` for all
`i < j <= 0x47`, and `pan_table[i] = 0` for every `i` in `0x48 .. 0x63`. -/
theorem pan_table_shape (p : ℚ) (sqrt : ℚ → ℚ) (T : tables) (hzero : sqrt 0 = 0)
    (hmono : ∀ a b : Nat, a < b → b ≤ 0x47 → sqrt (a : ℚ) < sqrt (b : ℚ)) :
    (∀ i, i ≤ 0x47 → (init_static_tables p sqrt T).pan_table i =
      sqrt (((0x47 - i : Nat) : ℚ)) / sqrt 0x47) ∧
    (init_static_tables p sqrt T).pan_table 0 = 1 ∧
    (∀ i j, i < j → j ≤ 0x47 → (init_static_tables p sqrt T).pan_table j <
      (init_static_tables p sqrt T).pan_table i) ∧
    (∀ i, 0x48 ≤ i → i ≤ 0x63 → (init_static_tables p sqrt T).pan_table i = 0) := by
  have hpos : 0 < sqrt 0x47 := by
    have h := hmono 0 0x47 (by norm_num) (by norm_num)
    rw [Nat.cast_zero, hzero] at h
    exact_mod_cast h
  refine ⟨fun i hi => pan_table_low p sqrt T i hi, ?_, ?_,
    fun i hlo hhi => pan_table_high p sqrt T i hlo hhi⟩
  · rw [pan_table_low p sqrt T 0 (by norm_num)]
    have : (((0x47 - 0 : Nat) : ℚ)) = 0x47 := by norm_num
    rw [this]
    exact div_self (ne_of_gt hpos)
  · intro i j hij hj
    rw [pan_table_low p sqrt T i (by omega), pan_table_low p sqrt T j hj]
    exact div_lt_div_of_pos_right (hmono (0x47 - j) (0x47 - i) (by omega) (by omega)) hpos

/-- Instance of C18 with the three-decimal square root `sqrt_approx`. -/
theorem pan_table_shape_witness :
    sqrt_approx 0 = 0 ∧
    (∀ a b : Nat, a < b → b ≤ 0x47 → sqrt_approx (a : ℚ) < sqrt_approx (b : ℚ)) ∧
    (init_static_tables (103291 / 100000) sqrt_approx demo_tables).pan_table 0 = 1 ∧
    (init_static_tables (103291 / 100000) sqrt_approx demo_tables).pan_table 0x47 <
      (init_static_tables (103291 / 100000) sqrt_approx demo_tables).pan_table 0x46 ∧
    (init_static_tables (103291 / 100000) sqrt_approx demo_tables).pan_table 0x48 = 0 :=
  have h := pan_table_shape (103291 / 100000) sqrt_approx demo_tables sqrt_approx_zero
    sqrt_approx_mono
  ⟨sqrt_approx_zero, sqrt_approx_mono, h.2.1, h.2.2.1 0x46 0x47 (by norm_num) (by norm_num),
   h.2.2.2 0x48 (by norm_num) (by norm_num)⟩

/-- C19 (volume table monotonicity): with the divisor `p = 10 ^ ((4.5 / 16) / 20)` taken
as a given value `p >= 1`, after `init_static_tables` entry 0 of the volume table is
255, `volume_table[i + 1] <= volume_table[i]` for every `i` in `0..254`, every entry is
within `[0, 255]`, and entry `i` is the truncation of 255 divided `i` times by `p`. -/
theorem volume_table_monotone (p : ℚ) (hp : 1 ≤ p) (sqrt : ℚ → ℚ) (T : tables) :
    (init_static_tables p sqrt T).volume_table 0 = 255 ∧
    (∀ i, i < 255 → (init_static_tables p sqrt T).volume_table (i + 1) ≤
      (init_static_tables p sqrt T).volume_table i) ∧
    (∀ i, i < 256 → 0 ≤ (init_static_tables p sqrt T).volume_table i ∧
      (init_static_tables p sqrt T).volume_table i ≤ 255) ∧
    (∀ i, i < 256 → (init_static_tables p sqrt T).volume_table i = trunc (255 / p ^ i)) := by
  refine ⟨?_, ?_, ?_, ?_⟩
  · rw [volume_table_floor p hp sqrt T 0 (by norm_num)]
    norm_num
  · intro i hi
    rw [volume_table_floor p hp sqrt T (i + 1) (by omega),
      volume_table_floor p hp sqrt T i (by omega)]
    exact Int.floor_le_floor (volume_quotient_bounds p hp i).2.2
  · intro i hi
    obtain ⟨h0, h255, -⟩ := volume_quotient_bounds p hp i
    rw [volume_table_floor p hp sqrt T i hi]
    refine ⟨Int.floor_nonneg.mpr h0, ?_⟩
    have : ⌊255 / p ^ i⌋ < 256 := Int.floor_lt.mpr (by push_cast; linarith)
    omega
  · intro i hi
    rw [volume_table_floor p hp sqrt T i hi,
      trunc_of_nonneg _ (volume_quotient_bounds p hp i).1]

/-- Instance of C19 with the divisor `1.03291`. -/
theorem volume_table_monotone_witness :
    (1 : ℚ) ≤ 103291 / 100000 ∧
    (init_static_tables (103291 / 100000) sqrt_approx demo_tables).volume_table 0 = 255 ∧
    (init_static_tables (103291 / 100000) sqrt_approx demo_tables).volume_table 1 ≤
      (init_static_tables (103291 / 100000) sqrt_approx demo_tables).volume_table 0 ∧
    0 ≤ (init_static_tables (103291 / 100000) sqrt_approx demo_tables).volume_table 255 :=
  have h := volume_table_monotone (103291 / 100000) (by norm_num) sqrt_approx demo_tables
  ⟨by norm_num, h.1, h.2.1 0 (by norm_num), (h.2.2.1 255 (by norm_num)).1⟩

/-- C20 (attack-to-decay step): for a voice in `PHASE_ATTACK` with `start != end`, one
synthesized sample computes `L = env_level + env_step * env_scale`; if `L >= 1` the voice
ends the sample in `PHASE_DECAY` with `env_level = 1` and `env_step = 0` when the decay
register has bit `0x80` set or equals `0x100`, and the decay lookup otherwise; if `L < 1`
it stays in `PHASE_ATTACK` with `env_level = L` and `env_step` unchanged. -/
theorem attack_step (T : tables) (d : rf5c400_device) (ch : Fin 32)
    (hph : (d.m_channels ch).env_phase = Phase.PHASE_ATTACK)
    (hse : chan_start (d.m_channels ch) ≠ chan_end (d.m_channels ch)) :
    (1 ≤ (d.m_channels ch).env_level + (d.m_channels ch).env_step * (d.m_channels ch).env_scale →
      ((sound_stream_update T d 1).1.m_channels ch).env_phase = Phase.PHASE_DECAY ∧
      ((sound_stream_update T d 1).1.m_channels ch).env_level = 1 ∧
      ((sound_stream_update T d 1).1.m_channels ch).env_step =
        (if (d.m_channels ch).decay &&& 0x0080 ≠ 0 ∨ (d.m_channels ch).decay = 0x100 then 0
         else T.dr (d.m_channels ch))) ∧
    ((d.m_channels ch).env_level + (d.m_channels ch).env_step * (d.m_channels ch).env_scale < 1 →
      ((sound_stream_update T d 1).1.m_channels ch).env_phase = Phase.PHASE_ATTACK ∧
      ((sound_stream_update T d 1).1.m_channels ch).env_level =
        (d.m_channels ch).env_level +
          (d.m_channels ch).env_step * (d.m_channels ch).env_scale ∧
      ((sound_stream_update T d 1).1.m_channels ch).env_step = (d.m_channels ch).env_step) := by
  have hp : (d.m_channels ch).env_phase ≠ Phase.PHASE_NONE := by rw [hph]; decide
  rw [sound_stream_update_channel, chan_after_one T d.space _ hp hse, tick_fst]
  generalize d.m_channels ch = c at *
  refine ⟨?_, ?_⟩
  · intro hL
    simp only [commit_locals, env_update, load_locals, hph]
    have hL' : c.env_level + c.env_step * c.env_scale ≥ 1 := hL
    simp only [hL', if_true]
    exact ⟨trivial, trivial, trivial⟩
  · intro hL
    simp only [commit_locals, env_update, load_locals, hph]
    have hL' : ¬ (c.env_level + c.env_step * c.env_scale ≥ 1) := not_le.mpr hL
    simp only [hL', if_false]
    exact ⟨trivial, trivial, trivial⟩

/-- Instance of C20: voice 0 of `attack_device` (level 0, step 1, scale 1, decay
register 0) reaches `L = 1` with its first sample. -/
theorem attack_step_witness :
    (attack_device.m_channels 0).env_phase = Phase.PHASE_ATTACK ∧
    chan_start (attack_device.m_channels 0) ≠ chan_end (attack_device.m_channels 0) ∧
    ((sound_stream_update demo_tables attack_device 1).1.m_channels 0).env_phase
      = Phase.PHASE_DECAY ∧
    ((sound_stream_update demo_tables attack_device 1).1.m_channels 0).env_level = 1 := by
  have h := (attack_step demo_tables attack_device 0 (by decide) (by decide)).1
    (by rw [attack_device_channel]; norm_num [zero_channel])
  exact ⟨by decide, by decide, h.1, h.2.1⟩

/-- C21 (block splitting): when the decay lookup reads only register fields of the voice
record (it gives the same value after `pos`, `env_phase`, `env_level`, `env_step` were
written back), rendering one block of `N + M` samples yields the same final device state
as rendering a block of `N` samples followed by a block of `M` samples, and its two
output buffers are the concatenations of the outputs of the two blocks: sample `i < N` is
sample `i` of the first block, sample `i >= N` is sample `i - N` of the second. -/
theorem block_splitting (T : tables) (hdr : ∀ c v, T.dr (commit_locals c v) = T.dr c)
    (d : rf5c400_device) (N M : Nat) :
    (sound_stream_update T (sound_stream_update T d N).1 M).1 =
      (sound_stream_update T d (N + M)).1 ∧
    (∀ i, (sound_stream_update T d (N + M)).2.1 i =
      if i < N then (sound_stream_update T d N).2.1 i
      else (sound_stream_update T (sound_stream_update T d N).1 M).2.1 (i - N)) ∧
    (∀ i, (sound_stream_update T d (N + M)).2.2 i =
      if i < N then (sound_stream_update T d N).2.2 i
      else (sound_stream_update T (sound_stream_update T d N).1 M).2.2 (i - N)) := by
  obtain ⟨h1, h2⟩ := sound_stream_update_split T hdr d N M
  refine ⟨h1, ?_, ?_⟩
  · intro i
    rw [h2]
    rfl
  · intro i
    rw [h2]
    rfl

/-- Instance of C21: `demo_tables` (constant decay lookup), `attack_device`, one sample
followed by two samples. -/
theorem block_splitting_witness :
    (∀ c v, demo_tables.dr (commit_locals c v) = demo_tables.dr c) ∧
    (sound_stream_update demo_tables (sound_stream_update demo_tables attack_device 1).1 2).1 =
      (sound_stream_update demo_tables attack_device (1 + 2)).1 ∧
    (sound_stream_update demo_tables attack_device (1 + 2)).2.1 2 =
      (sound_stream_update demo_tables (sound_stream_update demo_tables attack_device 1).1 2).2.1
        1 :=
  have h := block_splitting demo_tables (fun _ _ => rfl) attack_device 1 2
  ⟨fun _ _ => rfl, h.1, h.2.1 2⟩

/-- C22 (failing input): voice 0 of the reachable state `pan_device` is active and its
pan register holds `0xFFFF`, written through offset `0x406`. Both pan codes, `pan & 0xFF`
and `pan >> 8`, are `0xFF`, which is not an index below `0x64`. The integer that the first
sample hands to `add_int` for the left output is 8160 times the pan-table entry at index
`0xFF`: it is 8160 with `demo_tables` and 0 with `demo_tables_short`, two table sets that
agree on all `0x64` entries of the pan table. -/
theorem pan_code_out_of_table :
    Reachable demo_tables pan_device ∧
    (pan_device.m_channels 0).env_phase ≠ Phase.PHASE_NONE ∧
    chan_start (pan_device.m_channels 0) ≠ chan_end (pan_device.m_channels 0) ∧
    (pan_device.m_channels 0).pan = 0xFFFF ∧
    (pan_device.m_channels 0).pan &&& 0xFF = 0xFF ∧
    ((pan_device.m_channels 0).pan >>> 8) % 256 = 0xFF ∧
    ¬ ((0xFF : Nat) < 0x64) ∧
    (∀ i, i < 0x64 → demo_tables_short.pan_table i = demo_tables.pan_table i) ∧
    (tick demo_tables pan_device.space (pan_device.m_channels 0)
      (load_locals (pan_device.m_channels 0))).2.1 = 8160 ∧
    (tick demo_tables_short pan_device.space (pan_device.m_channels 0)
      (load_locals (pan_device.m_channels 0))).2.1 = 0 := by
  refine ⟨pan_device_reachable, by decide, by decide, by decide, by decide, by decide,
    by decide, ?_, ?_, ?_⟩
  · intro i hi
    simp [demo_tables_short, demo_tables, hi]
  · rw [pan_device_sample demo_tables rfl]
    have h : (8160 : ℚ) * demo_tables.pan_table 0xFF = ((8160 : Int) : ℚ) := by
      simp [demo_tables]
    rw [h, trunc_intCast]
  · rw [pan_device_sample demo_tables_short rfl]
    have h : (8160 : ℚ) * demo_tables_short.pan_table 0xFF = ((0 : Int) : ℚ) := by
      simp [demo_tables_short]
    rw [h, trunc_intCast]

end RF5C400
